import Mathlib

/-!
Verification development for the limsync core (scanner, comparator,
deletion-intent overlay, planner, apply engine, ignore rules, state store).

Shallow embedding conventions:
* Python `int` becomes `Int` (or `Nat` where the source value is a count,
  size or mode), Python strings become `String`, tuples/lists become `List`,
  `None`-able values become `Option`.
* `datetime.strptime` (used by `_infer_metadata_source_from_details` for the
  mtime branch) and `compare._format_mtime_ns` (which goes through float
  seconds) are external algorithms; they are passed as explicit function
  parameters (`strptime`, `fmtMtime`) and the theorems quantify over them.
  A `strptime` result of `none` models the `ValueError` that the source lets
  propagate; computations that can propagate it live in `Except Unit`.
* `text_utils.normalize_text` (surrogateescape + NFC; the `limsync` revision
  of the module is absent from the sources, only the spec and the `li_sync`
  copy describe it) is likewise passed as a parameter `norm`; on the ASCII
  inputs of all concrete witnesses it is the identity.
-/

set_option maxHeartbeats 1000000

namespace Limsync

/-- `models.py` `NodeType` (`file` / `dir` / `symlink`). -/
inductive NodeType where
  | file
  | dir
  | symlink
deriving DecidableEq, Repr

/-- The string value of a `NodeType`, as in the Python `str`-enum. -/
def NodeType.value : NodeType → String
  | .file => "file"
  | .dir => "dir"
  | .symlink => "symlink"

/-- `models.py` `ContentState`.  The checked-in `models.py` revision names the
one-sided members `ONLY_LOCAL` / `ONLY_REMOTE`; `compare.py`, the tests and the
spec use the later `ONLY_LEFT` / `ONLY_RIGHT` naming, which we follow.  No
claim depends on the value strings of the one-sided members; the three
both-sided members have the value strings `identical` / `different` /
`unknown` in every revision. -/
inductive ContentState where
  | identical
  | different
  | onlyLeft
  | onlyRight
  | unknown
deriving DecidableEq, Repr

/-- The string value of a `ContentState` member. -/
def ContentState.value : ContentState → String
  | .identical => "identical"
  | .different => "different"
  | .onlyLeft => "only_left"
  | .onlyRight => "only_right"
  | .unknown => "unknown"

/-- `models.py` `MetadataState`. -/
inductive MetadataState where
  | identical
  | different
  | notApplicable
deriving DecidableEq, Repr

/-- `models.py` `FileRecord`. -/
structure FileRecord where
  relpath : String
  node_type : NodeType
  size : Nat
  mtime_ns : Int
  mode : Nat
  link_target : Option String := none
  link_target_key : Option String := none
  owner : Option String := none
  group : Option String := none
deriving DecidableEq, Repr

/-- `models.py` `DiffRecord` (with the `left_size` / `right_size` field naming
used by `compare.py` and the tests). -/
structure DiffRecord where
  relpath : String
  content_state : ContentState
  metadata_state : MetadataState
  metadata_diff : List String
  metadata_details : List String := []
  metadata_source : Option String := none
  left_size : Option Nat := none
  right_size : Option Nat := none
deriving DecidableEq, Repr

/-! ## compare.py -/

/-- One digit `0`–`7` as a character. -/
def octDigitChar (d : Nat) : Char := Char.ofNat (48 + d)

/-- Octal digits, least-significant first, structurally recursive on a fuel
bounding the digit count (`n` has at most `n + 1` octal digits, so the `0`
arm is unreachable from `octDigitsRev`). -/
def octDigitsRevFuel : Nat → Nat → List Char
  | 0, _ => []
  | fuel + 1, n =>
    if n < 8 then [octDigitChar n]
    else octDigitChar (n % 8) :: octDigitsRevFuel fuel (n / 8)

/-- Octal digits of `n`, least-significant first. -/
def octDigitsRev (n : Nat) : List Char := octDigitsRevFuel (n + 1) n

/-- The Python format `f"\x7bmode:03o\x7d"`: octal digits, zero-padded to at
least three characters. -/
def octPad3 (n : Nat) : String :=
  let ds := (octDigitsRev n).reverse
  String.mk (List.replicate (3 - ds.length) '0' ++ ds)

/-- `compare._format_mode`. -/
def formatMode (m : Nat) : String := "0x" ++ octPad3 m

/-- `compare._same_metadata`: `(all-identical?, metadata_diff, metadata_details)`.
`fmtMtime` stands for `_format_mtime_ns`. -/
def sameMetadata (fmtMtime : Int → String) (l r : FileRecord) (tol : Int) :
    Bool × List String × List String :=
  let modeDiffers : Bool := decide (l.mode ≠ r.mode)
  let mtimeDiffers : Bool := decide (|l.mtime_ns - r.mtime_ns| > tol)
  let diff := (if modeDiffers then [("mode" : String)] else []) ++
    (if mtimeDiffers then [("mtime" : String)] else [])
  let details :=
    (if modeDiffers then
      ["mode: left=" ++ formatMode l.mode ++ " right=" ++ formatMode r.mode]
     else []) ++
    (if mtimeDiffers then
      ["mtime: left=" ++ fmtMtime l.mtime_ns ++ " right=" ++ fmtMtime r.mtime_ns]
     else [])
  (diff.isEmpty, diff, details)

/-- `compare._preferred_metadata_source`. -/
def preferredMetadataSource (l r : FileRecord) (metadataDiff : List String) :
    Option String :=
  if ("mode" : String) ∈ metadataDiff ∧ l.mode ≠ r.mode then
    some (if l.mode < r.mode then "left" else "right")
  else if ("mtime" : String) ∈ metadataDiff ∧ l.mtime_ns ≠ r.mtime_ns then
    some (if l.mtime_ns < r.mtime_ns then "left" else "right")
  else none

/-- Python `a or b` for string-valued `a` (`None` and `""` are falsy). -/
def orFalsy (a b : Option String) : Option String :=
  match a with
  | some s => if s = "" then b else some s
  | none => b

/-- Scan-result maps `relpath → FileRecord` are embedded as association
lists; `keysOf` lists the keys. -/
def keysOf (m : List (String × FileRecord)) : List String := m.map Prod.fst

/-- Python `sorted(set(a) | set(b))`. -/
def sortedUnion (a b : List String) : List String :=
  List.insertionSort (· ≤ ·) ((a ++ b).dedup)

/-- The body of the `compare_records` loop for one `relpath`, split on the
two lookups.  The `(none, none)` case is unreachable for paths of the union
(the source asserts it); it returns an inert identical record. -/
def diffForPair (fmtMtime : Int → String) (tol : Int) (p : String) :
    Option FileRecord → Option FileRecord → DiffRecord
  | some l, none =>
    { relpath := p, content_state := .onlyLeft, metadata_state := .notApplicable,
      metadata_diff := [], metadata_details := [], metadata_source := none,
      left_size := some l.size, right_size := none }
  | none, some r =>
    { relpath := p, content_state := .onlyRight, metadata_state := .notApplicable,
      metadata_diff := [], metadata_details := [], metadata_source := none,
      left_size := none, right_size := some r.size }
  | none, none =>
    { relpath := p, content_state := .identical, metadata_state := .notApplicable,
      metadata_diff := [], metadata_details := [], metadata_source := none,
      left_size := none, right_size := none }
  | some l, some r =>
    if l.node_type ≠ r.node_type then
      { relpath := p, content_state := .different, metadata_state := .different,
        metadata_diff := [("type" : String)],
        metadata_details := ["type: " ++ l.node_type.value ++ " -> " ++ r.node_type.value],
        metadata_source := none,
        left_size := some l.size, right_size := some r.size }
    else
      let sm := sameMetadata fmtMtime l r tol
      let metadata_source := preferredMetadataSource l r sm.2.1
      if l.node_type = .symlink then
        let leftTarget := orFalsy l.link_target_key l.link_target
        let rightTarget := orFalsy r.link_target_key r.link_target
        { relpath := p,
          content_state := if leftTarget = rightTarget then .identical else .different,
          metadata_state := .notApplicable,
          metadata_diff := [], metadata_details := [], metadata_source := none,
          left_size := some l.size, right_size := some r.size }
      else if l.node_type ≠ .file then
        { relpath := p, content_state := .identical,
          metadata_state := if sm.1 then .identical else .different,
          metadata_diff := sm.2.1, metadata_details := sm.2.2,
          metadata_source := metadata_source,
          left_size := some l.size, right_size := some r.size }
      else
        let sameContent : Bool :=
          decide (l.size = r.size) && decide (|l.mtime_ns - r.mtime_ns| ≤ tol)
        { relpath := p,
          content_state :=
            if sameContent then .identical
            else if l.size = r.size then .unknown
            else .different,
          metadata_state := if sm.1 then .identical else .different,
          metadata_diff := sm.2.1, metadata_details := sm.2.2,
          metadata_source := metadata_source,
          left_size := some l.size, right_size := some r.size }

/-- The loop body applied to one `relpath` of the sorted union. -/
def diffForPath (fmtMtime : Int → String) (left right : List (String × FileRecord))
    (tol : Int) (p : String) : DiffRecord :=
  diffForPair fmtMtime tol p (left.lookup p) (right.lookup p)

/-- `compare.compare_records`. -/
def compareRecords (fmtMtime : Int → String) (left right : List (String × FileRecord))
    (tol : Int) : List DiffRecord :=
  (sortedUnion (keysOf left) (keysOf right)).map (diffForPath fmtMtime left right tol)

/-! ## deletion_intent.py -/

/-- `deletion_intent.DELETED_ON_LEFT`. -/
def DELETED_ON_LEFT : String := "deleted_on_left"

/-- `deletion_intent.DELETED_ON_RIGHT`. -/
def DELETED_ON_RIGHT : String := "deleted_on_right"

/-- `deletion_intent._was_present_on_both_sides`; the argument is the
previous content-state value string (or `none`). -/
def wasPresentOnBothSides : Option String → Bool
  | none => false
  | some v =>
    (v == ContentState.value .identical) ||
    (v == ContentState.value .different) ||
    (v == ContentState.value .unknown)

/-- The body of the `apply_intentional_deletion_hints` loop for one diff. -/
def hintForDiff (prev : String → Option String) (d : DiffRecord) : DiffRecord :=
  if !wasPresentOnBothSides (prev d.relpath) then d
  else if d.content_state = .onlyRight then
    { d with metadata_source := some DELETED_ON_LEFT }
  else if d.content_state = .onlyLeft then
    { d with metadata_source := some DELETED_ON_RIGHT }
  else d

/-- `deletion_intent.apply_intentional_deletion_hints`; `prev` maps a relpath
to the previous content-state value string. -/
def applyIntentionalDeletionHints (diffs : List DiffRecord)
    (prev : String → Option String) : List DiffRecord :=
  diffs.map (hintForDiff prev)

/-! ## planner_apply.py — planner -/

/-- `planner_apply.PlanOperation`. -/
structure PlanOperation where
  kind : String
  relpath : String
deriving DecidableEq, Repr

/-- `planner_apply.ACTION_LEFT_WINS`. -/
def ACTION_LEFT_WINS : String := "left_wins"

/-- `planner_apply.ACTION_RIGHT_WINS`. -/
def ACTION_RIGHT_WINS : String := "right_wins"

/-- `planner_apply.ACTION_IGNORE`. -/
def ACTION_IGNORE : String := "ignore"

/-- `planner_apply.ACTION_SUGGESTED`. -/
def ACTION_SUGGESTED : String := "suggested"

/-- ASCII whitespace as matched by the regex class in the mode / mtime
detail patterns (the details only ever contain plain spaces). -/
def isSpaceChar (c : Char) : Bool :=
  c = ' ' || c = '\t' || c = '\n' || c = '\r' || c = '\x0b' || c = '\x0c'

/-- Consume a literal prefix of characters. -/
def dropLit : List Char → List Char → Option (List Char)
  | [], cs => some cs
  | _ :: _, [] => none
  | l :: ls, c :: cs => if c = l then dropLit ls cs else none

/-- Consume the regex `\s+` (one or more whitespace characters; the following
literal always starts with a non-space letter, so greedy matching is
deterministic). -/
def dropSpaces1 : List Char → Option (List Char)
  | [] => none
  | c :: cs => if isSpaceChar c then some (cs.dropWhile isSpaceChar) else none

/-- Value of one octal digit character `0`–`7`. -/
def octVal (c : Char) : Option Nat :=
  if '0' ≤ c ∧ c ≤ '7' then some (c.toNat - 48) else none

/-- Consume the regex `[0-7]\x7b3\x7d` and return its value. -/
def takeOct3 : List Char → Option (Nat × List Char)
  | c0 :: c1 :: c2 :: cs => do
    let d0 ← octVal c0
    let d1 ← octVal c1
    let d2 ← octVal c2
    pure ((d0 * 8 + d1) * 8 + d2, cs)
  | _ => none

/-- `re.match` of the pattern
`mode:\s+left=0x([0-7]\x7b3\x7d)\s+right=0x([0-7]\x7b3\x7d)` (a prefix match:
trailing characters are not inspected).  Returns the two captured mode
values. -/
def matchModeDetail (s : String) : Option (Nat × Nat) := do
  let cs ← dropLit ("mode:".data) s.data
  let cs ← dropSpaces1 cs
  let cs ← dropLit ("left=0x".data) cs
  let (lm, cs) ← takeOct3 cs
  let cs ← dropSpaces1 cs
  let cs ← dropLit ("right=0x".data) cs
  let (rm, _) ← takeOct3 cs
  pure (lm, rm)

/-- The lazy tail of the mtime pattern: find the shortest prefix `a` of the
input such that the remainder matches `\s+right=`, returning `a` and what
follows the `right=` literal (the lazy `(.*?)` group semantics of the regex;
`right=` starts with a non-space letter, so the greedy `\s+` needs no
backtracking). -/
def splitLazyRight : List Char → Option (List Char × List Char)
  | [] => none
  | c :: cs =>
    match (do let t ← dropSpaces1 (c :: cs); dropLit ("right=".data) t) with
    | some rest => some ([], rest)
    | none => (splitLazyRight cs).map (fun p => (c :: p.1, p.2))

/-- `re.match` of the pattern `mtime:\s+left=(.*?)\s+right=(.*?)$`, returning
the two captured strings. -/
def matchMtimeDetail (s : String) : Option (String × String) := do
  let cs ← dropLit ("mtime:".data) s.data
  let cs ← dropSpaces1 cs
  let cs ← dropLit ("left=".data) cs
  let (a, b) ← splitLazyRight cs
  pure (String.mk a, String.mk b)

/-- The first loop of `_infer_metadata_source_from_details`: scan the details
for a mode match with differing sides. -/
def findModeVerdict : List String → Option String
  | [] => none
  | d :: rest =>
    match matchModeDetail d with
    | some (lm, rm) =>
      if lm ≠ rm then some (if lm < rm then "left" else "right")
      else findModeVerdict rest
    | none => findModeVerdict rest

/-- The second loop of `_infer_metadata_source_from_details`: scan the details
for an mtime match with differing parsed datetimes.  `strptime` models
`datetime.strptime(_, "%Y-%m-%d %H:%M:%S.%f UTC")` (datetimes are totally
ordered, embedded as `Int`); a `none` result models the `ValueError` the
source lets propagate, hence the `Except`. -/
def findMtimeVerdict (strptime : String → Option Int) :
    List String → Except Unit (Option String)
  | [] => .ok none
  | d :: rest =>
    match matchMtimeDetail d with
    | some (a, b) =>
      match strptime a, strptime b with
      | some ta, some tb =>
        if ta ≠ tb then .ok (some (if ta < tb then "left" else "right"))
        else findMtimeVerdict strptime rest
      | _, _ => .error ()
    | none => findMtimeVerdict strptime rest

/-- `planner_apply._infer_metadata_source_from_details`. -/
def inferMetadataSourceFromDetails (strptime : String → Option Int)
    (d : DiffRecord) : Except Unit (Option String) :=
  match findModeVerdict d.metadata_details with
  | some v => .ok (some v)
  | none => findMtimeVerdict strptime d.metadata_details

/-- `planner_apply._suggested_metadata_op` (`diff.metadata_source or
_infer_metadata_source_from_details(diff)` — `None` and `""` are falsy). -/
def suggestedMetadataOp (strptime : String → Option Int) (relpath : String)
    (d : DiffRecord) : Except Unit (List PlanOperation) := do
  let source ← match d.metadata_source with
    | some s =>
      if s = "" then inferMetadataSourceFromDetails strptime d
      else pure (some s)
    | none => inferMetadataSourceFromDetails strptime d
  match source with
  | some s =>
    if s = "left" then pure [⟨"metadata_update_right", relpath⟩]
    else if s = "right" then pure [⟨"metadata_update_left", relpath⟩]
    else pure []
  | none => pure []

/-- `planner_apply._metadata_ops`. -/
def metadataOps (strptime : String → Option Int) (relpath : String)
    (action : String) (d : DiffRecord) : Except Unit (List PlanOperation) :=
  if d.metadata_state ≠ .different then pure []
  else if action = ACTION_LEFT_WINS then pure [⟨"metadata_update_right", relpath⟩]
  else if action = ACTION_RIGHT_WINS then pure [⟨"metadata_update_left", relpath⟩]
  else if action = ACTION_SUGGESTED then suggestedMetadataOp strptime relpath d
  else pure []

/-- The body of the `build_plan_operations` loop for one diff (the operations
it appends for that diff); the leading `action == ACTION_IGNORE: continue`
is the first test. -/
def planOpsForDiff (strptime : String → Option Int) (action : String)
    (d : DiffRecord) : Except Unit (List PlanOperation) :=
  if action = ACTION_IGNORE then pure []
  else if d.content_state = .onlyLeft then
    pure (if action = ACTION_LEFT_WINS ∨ action = ACTION_SUGGESTED then
        (if action = ACTION_SUGGESTED ∧ d.metadata_source = some DELETED_ON_RIGHT then
          [⟨"delete_left", d.relpath⟩]
        else [⟨"copy_right", d.relpath⟩])
      else if action = ACTION_RIGHT_WINS then [⟨"delete_left", d.relpath⟩]
      else [])
  else if d.content_state = .onlyRight then
    pure (if action = ACTION_RIGHT_WINS ∨ action = ACTION_SUGGESTED then
        (if action = ACTION_SUGGESTED ∧ d.metadata_source = some DELETED_ON_LEFT then
          [⟨"delete_right", d.relpath⟩]
        else [⟨"copy_left", d.relpath⟩])
      else if action = ACTION_LEFT_WINS then [⟨"delete_right", d.relpath⟩]
      else [])
  else
    let copyOps : List PlanOperation :=
      if d.content_state = .different ∨ d.content_state = .unknown then
        (if action = ACTION_LEFT_WINS then [⟨"copy_right", d.relpath⟩]
         else if action = ACTION_RIGHT_WINS then [⟨"copy_left", d.relpath⟩]
         else [])
      else []
    if d.content_state = .different ∧ action = ACTION_SUGGESTED then
      pure copyOps
    else do
      let mops ← metadataOps strptime d.relpath action d
      pure (copyOps ++ mops)

/-- The key of a plan operation for deduplication. -/
def opKey (op : PlanOperation) : String × String := (op.kind, op.relpath)

/-- The final `\x7b(op.kind, op.relpath): op for op in ops\x7d` deduplication:
a Python dict keeps the first-insertion position of each key (the values of
equal keys are equal operations). -/
def dedupOps (ops : List PlanOperation) : List PlanOperation :=
  ops.foldl (fun acc op => if opKey op ∈ acc.map opKey then acc else acc ++ [op]) []

/-- `planner_apply.build_plan_operations`; `overrides` is the
`action_overrides` dict (missing keys default to `ignore`). -/
def buildPlanOperations (strptime : String → Option Int) (diffs : List DiffRecord)
    (overrides : List (String × String)) : Except Unit (List PlanOperation) := do
  let ops ← diffs.foldlM (fun acc d => do
      let action := (overrides.lookup d.relpath).getD ACTION_IGNORE
      let newOps ← planOpsForDiff strptime action d
      pure (acc ++ newOps)) ([] : List PlanOperation)
  pure (dedupOps ops)

/-! ## planner_apply.py — apply engine accounting loop

`execute_plan` performs filesystem / SFTP side effects; the embedding keeps
its control flow and accounting exactly and represents the effectful outcome
of executing one (recognized) operation by an oracle
`exec : Nat → PlanOperation → Option String`: `none` means the operation's
branch ran to completion (`ok = True`), `some msg` means it raised an
exception with `str(exc) = msg`.  The oracle takes the loop index so that two
occurrences of the same operation may behave differently.  The
`operation_seconds` timing field (wall-clock floats) and the progress
callback (pure I/O) are not modelled. -/

/-- `planner_apply.ExecuteResult` (without the float-valued
`operation_seconds`). -/
structure ExecuteResult where
  completed_paths : List String
  errors : List String
  succeeded_operations : Nat
  total_operations : Nat
  succeeded_operation_keys : List (String × String)
  operation_counts : List (String × Nat)
deriving DecidableEq, Repr

/-- The operation kinds the `execute_plan` dispatch recognizes. -/
def knownKinds : List String :=
  ["copy_right", "copy_left", "delete_right", "delete_left",
   "metadata_update_left", "metadata_update_right"]

/-- Outcome of the `try` block for one operation: `none` = `ok`, `some msg` =
the `error` string that was set (either the caught exception's message or the
`unsupported operation kind` message for an unrecognized kind). -/
def opOutcome (exec : Nat → PlanOperation → Option String) (i : Nat)
    (op : PlanOperation) : Option String :=
  if op.kind ∈ knownKinds then exec i op
  else some ("unsupported operation kind: " ++ op.kind)

/-- `op_counts[op.kind] = op_counts.get(op.kind, 0) + 1`. -/
def bumpCount (counts : List (String × Nat)) (k : String) : List (String × Nat) :=
  match counts.lookup k with
  | some n => counts.map (fun p => if p.1 = k then (p.1, n + 1) else p)
  | none => counts ++ [(k, 1)]

/-- Python `set.add` on a set embedded as a duplicate-free list. -/
def insertKey (s : List (String × String)) (k : String × String) :
    List (String × String) :=
  if k ∈ s then s else s ++ [k]

/-- The mutable loop state of `execute_plan`. -/
structure ExecLoopState where
  errors : List String
  succeeded : List (String × String)
  counts : List (String × Nat)
deriving DecidableEq, Repr

/-- One iteration of the `for op in operations` loop: run the dispatch,
record counts, then `if ok: succeeded.add(...) elif error:
errors.append(f"...")` — note the Python truthiness test drops an empty
error message. -/
def execStep (exec : Nat → PlanOperation → Option String) (st : ExecLoopState)
    (i : Nat) (op : PlanOperation) : ExecLoopState :=
  let counts := bumpCount st.counts op.kind
  match opOutcome exec i op with
  | none =>
    { st with counts := counts, succeeded := insertKey st.succeeded (opKey op) }
  | some msg =>
    let errors := if msg = "" then st.errors
      else st.errors ++ [op.kind ++ " " ++ op.relpath ++ ": " ++ msg]
    { st with counts := counts, errors := errors }

/-- The relpaths of the `path_ops` dict, in first-occurrence order. -/
def pathOpsKeys (ops : List PlanOperation) : List String :=
  ops.foldl (fun acc op => if op.relpath ∈ acc then acc else acc ++ [op.relpath]) []

/-- `planner_apply.execute_plan` (accounting part; side effects through the
`exec` oracle).  Endpoint coercion and runtime construction precede the loop
in the source and perform no accounting. -/
def executePlan (exec : Nat → PlanOperation → Option String)
    (operations : List PlanOperation) : ExecuteResult :=
  if operations = [] then
    { completed_paths := [], errors := [], succeeded_operations := 0,
      total_operations := 0, succeeded_operation_keys := [],
      operation_counts := [] }
  else
    let final := operations.enum.foldl
      (fun st p => execStep exec st p.1 p.2)
      { errors := [], succeeded := [], counts := [] }
    let completed := (pathOpsKeys operations).filter (fun rp =>
      (operations.filter (fun op => op.relpath = rp)).all
        (fun op => opKey op ∈ final.succeeded))
    { completed_paths := completed,
      errors := final.errors,
      succeeded_operations := final.succeeded.length,
      total_operations := operations.length,
      succeeded_operation_keys := final.succeeded,
      operation_counts := final.counts }

/-! ## fnmatch

`fnmatch.fnmatch` on POSIX (`os.path.normcase` is the identity there): a
full match of the glob pattern against the name.  `*` matches any sequence
(including `/`), `?` any single character, `[...]` a character class with
`!` negation, ranges, a literal `]` first, and literal `[` when unclosed;
an invalid range (start above stop) matches nothing (CPython drops such
ranges when translating). -/

/-- Scan forward to the closing `]` of a character class, returning the
scanned content and the remainder after the `]`. -/
def scanClassEnd (acc : List Char) : List Char → Option (List Char × List Char)
  | [] => none
  | c :: rest =>
    if c = ']' then some (acc.reverse, rest)
    else scanClassEnd (c :: acc) rest

/-- The optional `!` and optional leading literal `]` at the start of a class
body, split off from the rest. -/
def classPre (cs : List Char) : List Char × List Char :=
  match cs with
  | '!' :: ']' :: rest => (['!', ']'], rest)
  | '!' :: rest => (['!'], rest)
  | ']' :: rest => ([']'], rest)
  | _ => ([], cs)

/-- Split a character class after its opening `[`: an optional `!`, then an
optional literal `]`, then content up to the closing `]`.  Returns the class
content (with the `!`) and the remainder, or `none` when the class is
unclosed. -/
def splitClass (cs : List Char) : Option (List Char × List Char) :=
  (scanClassEnd [] (classPre cs).2).map
    (fun q => ((classPre cs).1 ++ q.1, q.2))

/-- Membership of a character in the items of a class (ranges parsed
greedily, three characters at a time; a trailing or leading `-` is a
literal). -/
def classItemsMatch : List Char → Char → Bool
  | c1 :: '-' :: c2 :: rest, c =>
    (decide (c1 ≤ c2) && decide (c1 ≤ c) && decide (c ≤ c2)) || classItemsMatch rest c
  | c1 :: rest, c => (c1 = c) || classItemsMatch rest c
  | [], _ => false

/-- Membership in a full class content (handling the `!` negation). -/
def classMatch (content : List Char) (c : Char) : Bool :=
  match content with
  | '!' :: items => !(classItemsMatch items c)
  | items => classItemsMatch items c

/-- The glob matcher, structurally recursive on a fuel that bounds the
recursion depth: every recursive call strictly decreases
`p.length + s.length` (the class case consumes at least the closing `]`),
so the `0` arm is unreachable from `globMatch`. -/
def globMatchFuel : Nat → List Char → List Char → Bool
  | 0, _, _ => false
  | _ + 1, [], [] => true
  | _ + 1, [], _ :: _ => false
  | fuel + 1, '*' :: ps, s =>
    globMatchFuel fuel ps s ||
      (match s with
       | [] => false
       | _ :: s' => globMatchFuel fuel ('*' :: ps) s')
  | _ + 1, '?' :: _, [] => false
  | fuel + 1, '?' :: ps, _ :: s' => globMatchFuel fuel ps s'
  | fuel + 1, '[' :: ps, s =>
    (match splitClass ps with
     | some (content, ps') =>
       (match s with
        | [] => false
        | c :: s' => classMatch content c && globMatchFuel fuel ps' s')
     | none =>
       (match s with
        | [] => false
        | c :: s' => (c = '[') && globMatchFuel fuel ps s'))
  | _ + 1, _ :: _, [] => false
  | fuel + 1, pc :: ps, c :: s' => (pc = c) && globMatchFuel fuel ps s'

/-- The glob matcher itself (full-match semantics of `fnmatch`). -/
def globMatch (p : List Char) (s : List Char) : Bool :=
  globMatchFuel (p.length + s.length + 1) p s

/-- `fnmatch.fnmatch(name, pattern)` on POSIX. -/
def fnmatchPosix (name pattern : String) : Bool :=
  globMatch pattern.data name.data

/-! ## Python string helpers (character-exact, code-point based like Python) -/

/-- Python `s.split(sep)` for a single-character separator. -/
def splitCharsOn (sep : Char) : List Char → List (List Char)
  | [] => [[]]
  | c :: cs =>
    match splitCharsOn sep cs with
    | [] => [[]]
    | g :: gs => if c = sep then [] :: g :: gs else (c :: g) :: gs

/-- Python `s.split("/")`. -/
def splitSlash (s : String) : List String := (splitCharsOn '/' s.data).map String.mk

/-- Python `"/".join(parts)`. -/
def joinSlash (parts : List String) : String := String.intercalate "/" parts

/-- Python `s.startswith(pre)`. -/
def pyStartsWith (s pre : String) : Bool := pre.data.isPrefixOf s.data

/-- Python `s.endswith(suf)`. -/
def pyEndsWith (s suf : String) : Bool := suf.data.isSuffixOf s.data

/-- Python `s[n:]` (code-point slicing). -/
def pyDrop (s : String) (n : Nat) : String := String.mk (s.data.drop n)

/-- Python `len(s)` (code points). -/
def pyLen (s : String) : Nat := s.data.length

/-- Python `s.rstrip("/")`. -/
def rstripSlash (s : String) : String :=
  String.mk ((s.data.reverse.dropWhile (fun c => c = '/')).reverse)

/-- Python `s.lstrip("/")`. -/
def lstripSlash (s : String) : String :=
  String.mk (s.data.dropWhile (fun c => c = '/'))

/-- Python `s.strip()` (the ASCII whitespace that can occur in ignore
files). -/
def pyStrip (s : String) : String :=
  String.mk (((s.data.dropWhile isSpaceChar).reverse.dropWhile isSpaceChar).reverse)

/-- `_to_posix`: the dict key of an ancestor path given by its segments. -/
def toPosixKey (parts : List String) : String :=
  if parts = [] then "." else joinSlash parts

/-- Dict assignment `d[k] = v` on an association list. -/
def upsertAssoc (d : List (String × List String)) (k : String) (v : List String) :
    List (String × List String) :=
  if (d.lookup k).isSome then d.map (fun p => if p.1 = k then (p.1, v) else p)
  else d ++ [(k, v)]

/-- `add_spec` / `add`: strip lines, drop blank and `#` lines, store the
pattern list under the base key when nonempty.  Shared verbatim by
`ignore_rules_shared.IgnoreRules.add_spec` and the remote helper's
`IgnoreRules.add`. -/
def addSpec (rules : List (String × List String)) (baseParts : List String)
    (lines : List String) : List (String × List String) :=
  let patterns := lines.foldl (fun acc raw =>
    let line := pyStrip raw
    if line = "" ∨ pyStartsWith line ("#") then acc else acc ++ [line]) []
  if patterns = [] then rules else upsertAssoc rules (toPosixKey baseParts) patterns

/-! ## ignore_rules_shared.py — the local evaluator -/

namespace IgnoreShared

/-- `IgnoreRules._pattern_matches`. -/
def patternMatches (local_target pattern : String) (anchored : Bool) : Bool :=
  let target := rstripSlash local_target
  if anchored then fnmatchPosix target pattern
  else if !(pattern.data.contains '/') then
    fnmatchPosix target pattern ||
      ((splitSlash target).filter (fun p => p ≠ "")).any
        (fun part => fnmatchPosix part pattern)
  else
    fnmatchPosix target pattern ||
      (let parts := (splitSlash target).filter (fun p => p ≠ "")
       ((List.range parts.length).drop 1).any
         (fun idx => fnmatchPosix (joinSlash (parts.drop idx)) pattern))

/-- `IgnoreRules._match_patterns` of `ignore_rules_shared.py`.  Note: the
`is_dir` parameter is accepted but never consulted — this evaluator has no
`dir_only and not is_dir` skip. -/
def matchPatterns (local_target : String) (is_dir : Bool) (patterns : List String) :
    Option Bool :=
  patterns.foldl (fun result raw =>
    let negate := pyStartsWith raw ("!")
    let pattern := if negate then pyDrop raw 1 else raw
    if pattern = "" then result
    else
      let dir_only := pyEndsWith pattern ("/")
      let pattern := if dir_only then rstripSlash pattern else pattern
      let anchored := pyStartsWith pattern ("/")
      let pattern := if anchored then lstripSlash pattern else pattern
      if patternMatches local_target pattern anchored then some (!negate)
      else result) none

/-- `IgnoreRules.is_ignored`; the relpath is given by its POSIX segments
(`PurePosixPath.parts`). -/
def isIgnored (rules : List (String × List String)) (parts : List String)
    (is_dir : Bool) : Bool :=
  let targetBase := joinSlash parts
  let target := if is_dir && !(pyEndsWith targetBase ("/"))
    then targetBase ++ "/" else targetBase
  let ancestors := (List.range parts.length).map (fun k => parts.take k)
  ancestors.foldl (fun ignored anc =>
    let ancKey := toPosixKey anc
    match rules.lookup ancKey with
    | none => ignored
    | some patterns =>
      if patterns = [] then ignored
      else
        let matched :=
          if ancKey = "." then matchPatterns target is_dir patterns
          else
            let pre := ancKey ++ "/"
            if pyStartsWith target pre then
              matchPatterns (pyDrop target (pyLen pre)) is_dir patterns
            else none
        match matched with
        | some m => m
        | none => ignored) false

end IgnoreShared

/-! ## remote_helper.py — the over-SSH evaluator -/

namespace RemoteHelper

/-- `IgnoreRules._pattern_matches` of `remote_helper.py` (verbatim copy of
the shared one). -/
def patternMatches (local_target pattern : String) (anchored : Bool) : Bool :=
  let target := rstripSlash local_target
  if anchored then fnmatchPosix target pattern
  else if !(pattern.data.contains '/') then
    fnmatchPosix target pattern ||
      ((splitSlash target).filter (fun p => p ≠ "")).any
        (fun part => fnmatchPosix part pattern)
  else
    fnmatchPosix target pattern ||
      (let parts := (splitSlash target).filter (fun p => p ≠ "")
       ((List.range parts.length).drop 1).any
         (fun idx => fnmatchPosix (joinSlash (parts.drop idx)) pattern))

/-- `IgnoreRules._match_patterns` of `remote_helper.py`: identical to the
shared one except for the `if dir_only and not is_dir: continue` skip. -/
def matchPatterns (local_target : String) (is_dir : Bool) (patterns : List String) :
    Option Bool :=
  patterns.foldl (fun result raw =>
    let negate := pyStartsWith raw ("!")
    let pattern := if negate then pyDrop raw 1 else raw
    if pattern = "" then result
    else
      let dir_only := pyEndsWith pattern ("/")
      if dir_only && !is_dir then result
      else
        let pattern := if dir_only then rstripSlash pattern else pattern
        let anchored := pyStartsWith pattern ("/")
        let pattern := if anchored then lstripSlash pattern else pattern
        if patternMatches local_target pattern anchored then some (!negate)
        else result) none

/-- `IgnoreRules.is_ignored` of `remote_helper.py` (verbatim copy of the
shared one, dispatching to this module's `matchPatterns`). -/
def isIgnored (rules : List (String × List String)) (parts : List String)
    (is_dir : Bool) : Bool :=
  let targetBase := joinSlash parts
  let target := if is_dir && !(pyEndsWith targetBase ("/"))
    then targetBase ++ "/" else targetBase
  let ancestors := (List.range parts.length).map (fun k => parts.take k)
  ancestors.foldl (fun ignored anc =>
    let ancKey := toPosixKey anc
    match rules.lookup ancKey with
    | none => ignored
    | some patterns =>
      if patterns = [] then ignored
      else
        let matched :=
          if ancKey = "." then matchPatterns target is_dir patterns
          else
            let pre := ancKey ++ "/"
            if pyStartsWith target pre then
              matchPatterns (pyDrop target (pyLen pre)) is_dir patterns
            else none
        match matched with
        | some m => m
        | none => ignored) false

end RemoteHelper

/-! ## state_db.py

The store is embedded as a record of optional tables (`none` = the table does
not exist in the file); rows are structural (the `*_json` TEXT columns hold
`json.dumps` of lists of strings, which is injective, so they are kept as
`List String`).  Timestamps (`updated_at`, `CURRENT_TIMESTAMP`) are
environment-supplied noise and are not modelled.  The `ALTER TABLE` column
migrations for pre-left/right column names are not modelled: the embedded
store always has the current column set. -/

/-- The string value of a `MetadataState` member. -/
def MetadataState.value : MetadataState → String
  | .identical => "identical"
  | .different => "different"
  | .notApplicable => "not_applicable"

/-- `state_db.ScanStateSummary`. -/
structure ScanStateSummary where
  source_endpoint : String
  destination_endpoint : String
  source_scan_seconds : Float
  destination_scan_seconds : Float
  source_files : Nat
  destination_files : Nat
  compared_paths : Nat
  only_source : Nat
  only_destination : Nat
  different_content : Nat
  uncertain : Nat
  metadata_only : Nat

/-- A row of the `current_diffs` table. -/
structure DiffRow where
  relpath : String
  content_state : String
  metadata_state : String
  metadata_diff_json : List String
  metadata_detail_json : List String
  metadata_source : Option String
  left_size : Option Nat
  right_size : Option Nat
deriving DecidableEq, Repr

/-- A row of the `scan_actions` table (without the unmodelled
`updated_at`). -/
structure ActionRow where
  relpath : String
  action : String
deriving DecidableEq, Repr

/-- The embedded store file: each table is `none` while it does not exist. -/
structure DBState where
  limsync : Option (List (String × String)) := none
  state_meta : Option (Option ScanStateSummary) := none
  current_diffs : Option (List DiffRow) := none
  scan_actions : Option (List ActionRow) := none
  ui_prefs : Option (List (String × String)) := none

/-- `state_db._init_schema`: `CREATE TABLE IF NOT EXISTS` for `state_meta`,
`current_diffs`, `ui_prefs` and `scan_actions` (plus an index and column
migrations that do not change rows).  Note what it does **not** do: it never
creates, reads or verifies a `limsync` version-sentinel table, and it never
drops rows of an existing table. -/
def initSchema (db : DBState) : DBState :=
  { db with
    state_meta := some (db.state_meta.getD none),
    current_diffs := some (db.current_diffs.getD []),
    ui_prefs := some (db.ui_prefs.getD []),
    scan_actions := some (db.scan_actions.getD []) }

/-- The `current_diffs` row written for one diff (all text normalized as in
the source). -/
def toDiffRow (norm : String → String) (d : DiffRecord) : DiffRow :=
  { relpath := norm d.relpath,
    content_state := d.content_state.value,
    metadata_state := d.metadata_state.value,
    metadata_diff_json := d.metadata_diff,
    metadata_detail_json := d.metadata_details,
    metadata_source := d.metadata_source.map norm,
    left_size := d.left_size,
    right_size := d.right_size }

/-- `INSERT ... ON CONFLICT(relpath) DO UPDATE` on the `current_diffs`
table. -/
def upsertDiffRow (t : List DiffRow) (row : DiffRow) : List DiffRow :=
  if t.any (fun r => r.relpath = row.relpath) then
    t.map (fun r => if r.relpath = row.relpath then row else r)
  else t ++ [row]

/-- The `_seen_paths` temp table: normalized relpaths, `INSERT OR IGNORE`. -/
def seenPaths (norm : String → String) (diffs : List DiffRecord) : List String :=
  diffs.foldl (fun s d => if norm d.relpath ∈ s then s else s ++ [norm d.relpath]) []

/-- `state_db.save_current_state`: open + `_init_schema`, then in one
transaction upsert the `state_meta` singleton, upsert every diff row, delete
`current_diffs` and `scan_actions` rows whose relpath is not in the seen
set. -/
def saveCurrentState (norm : String → String) (db : DBState)
    (summary : ScanStateSummary) (diffs : List DiffRecord) : DBState :=
  let db := initSchema db
  let meta := { summary with
    source_endpoint := norm summary.source_endpoint,
    destination_endpoint := norm summary.destination_endpoint }
  let cd := diffs.foldl (fun t d => upsertDiffRow t (toDiffRow norm d))
    (db.current_diffs.getD [])
  let seen := seenPaths norm diffs
  let cd := cd.filter (fun r => r.relpath ∈ seen)
  let sa := (db.scan_actions.getD []).filter (fun a => a.relpath ∈ seen)
  { db with
    state_meta := some (some meta),
    current_diffs := some cd,
    scan_actions := some sa }

/-- The `ORDER BY relpath` relation (SQLite BINARY collation on UTF-8 text
is code-point order, as is Lean's `String` order). -/
def diffRowLE (a b : DiffRow) : Prop := a.relpath ≤ b.relpath

instance : DecidableRel diffRowLE := fun a b => by
  unfold diffRowLE; infer_instance

instance : IsTotal DiffRow diffRowLE := ⟨fun a b => le_total a.relpath b.relpath⟩

instance : IsTrans DiffRow diffRowLE :=
  ⟨fun _ _ _ hab hbc => le_trans hab hbc⟩

/-- `state_db.load_current_diffs`: open + `_init_schema`, then
`SELECT ... FROM current_diffs ORDER BY relpath` (the Python-side dict per
row is a field-for-field projection of the structural row). -/
def loadCurrentDiffs (db : DBState) : List DiffRow :=
  let db := initSchema db
  List.insertionSort diffRowLE (db.current_diffs.getD [])

/-! ## Filesystem model and the two scanners

A rooted tree is a list of named children.  `os.walk(..., topdown=True,
followlinks=False)` classifies an entry into the `dirs` list when
`entry.is_dir()` (which follows symlinks) is true — so a symlink whose
target is a directory is listed among the directories — and recurses only
into non-symlink directories.  The `targetIsDir` flag of a symlink entry
records what `is_dir()` reports for it (false also covers dangling links).
A `.dropboxignore` file's lines are carried in the `file` constructor. -/

inductive FSEntry where
  | file (size : Nat) (mtimeNs : Int) (mode : Nat) (lines : List String)
  | dir (children : List (String × FSEntry))
  | symlink (target : String) (targetIsDir : Bool) (size : Nat) (mtimeNs : Int) (mode : Nat)

/-- What `os.walk` uses to put an entry into its `dirs` list. -/
def FSEntry.isDirLike : FSEntry → Bool
  | .dir _ => true
  | .symlink _ b _ _ _ => b
  | .file .. => false

/-- The `lstat`-based node classification (`_node_type` / `node_type`). -/
def FSEntry.lstatType : FSEntry → NodeType
  | .file .. => .file
  | .dir _ => .dir
  | .symlink .. => .symlink

/-- `remote_helper.EXCLUDED_FOLDERS`; also modelled from the spec for the
local scanner, whose `limsync/config.py` (imported by `excludes.py`) is
absent from the sources — the spec lists the same set. -/
def EXCLUDED_FOLDERS : List String :=
  ["node_modules", ".tox", ".venv", ".limsync",
   "__pycache__", ".pytest_cache", ".cache", ".ruff_cache"]

/-- `remote_helper.EXCLUDED_FILE_NAMES`; likewise the spec's set for the
local scanner. -/
def EXCLUDED_FILE_NAMES : List String := [".DS_Store", "Icon\r"]

/-- `rules.load_if_exists(root, rel_dir)`: load a plain `.dropboxignore`
file of the visited directory into the rules state. -/
def loadIgnoreAt (rules : List (String × List String)) (relDir : List String)
    (children : List (String × FSEntry)) : List (String × List String) :=
  match children.lookup ".dropboxignore" with
  | some (.file _ _ _ lines) => addSpec rules relDir lines
  | _ => rules

/-- The `FileRecord` the local scanner emits for one non-directory entry;
`computeKey` stands for `symlink_utils.symlink_target_compare_key` with the
scanner's fixed `root` and `home`, `norm` for `text_utils.normalize_text`.
The `dir` arm is unreachable (directory-like entries never reach the files
loop). -/
def mkLocalRecord (computeKey : String → String → String) (norm : String → String)
    (childRel : List String) (e : FSEntry) : FileRecord :=
  let relpath := norm (joinSlash childRel)
  match e with
  | .symlink target _ sz mt md =>
    let lt := norm target
    { relpath := relpath, node_type := .symlink, size := sz, mtime_ns := mt,
      mode := md, link_target := some lt,
      link_target_key := some (computeKey relpath lt),
      owner := none, group := none }
  | .file sz mt md _ =>
    { relpath := relpath, node_type := .file, size := sz, mtime_ns := mt,
      mode := md, link_target := none, link_target_key := none,
      owner := none, group := none }
  | .dir _ =>
    { relpath := relpath, node_type := .dir, size := 0, mtime_ns := 0,
      mode := 0, link_target := none, link_target_key := none,
      owner := none, group := none }

mutual

/-- One visited directory of `LocalScanner.scan`'s `os.walk` loop: load the
directory's `.dropboxignore`, emit a record for every kept entry of the
`files` list (the non-`is_dir()` entries), then descend into the kept real
subdirectories in order, threading the shared `IgnoreRules` state.  Records
are keyed by their origin path segments (`child_rel`); symlink-to-directory
entries sit in the `dirs` list, are never in `files`, and are never
descended into (`followlinks=False`). -/
def walkLocalDir (computeKey : String → String → String) (norm : String → String)
    (rules : List (String × List String)) (relDir : List String)
    (children : List (String × FSEntry)) :
    (List (String × List String)) × List (List String × FileRecord) :=
  let rules1 := loadIgnoreAt rules relDir children
  let fileRecs := children.filterMap (fun p =>
    if p.2.isDirLike then none
    else if p.1 ∈ EXCLUDED_FILE_NAMES then none
    else
      let childRel := relDir ++ [p.1]
      if IgnoreShared.isIgnored rules1 childRel false then none
      else if p.2.lstatType = NodeType.dir then none
      else some (childRel, mkLocalRecord computeKey norm childRel p.2))
  let sub := walkLocalSeq computeKey norm rules1 rules1 relDir children
  (sub.1, fileRecs ++ sub.2)

/-- The descent over one directory's children: the pruning decisions use the
rules as loaded at the parent's visit (`checkRules`), while the mutable
rules state (`rules`) threads through the subtree walks in visit order. -/
def walkLocalSeq (computeKey : String → String → String) (norm : String → String)
    (checkRules rules : List (String × List String)) (relDir : List String) :
    List (String × FSEntry) →
      (List (String × List String)) × List (List String × FileRecord)
  | [] => (rules, [])
  | (nm, FSEntry.dir cs) :: rest =>
    if nm ∈ EXCLUDED_FOLDERS ∨
        IgnoreShared.isIgnored checkRules (relDir ++ [nm]) true then
      walkLocalSeq computeKey norm checkRules rules relDir rest
    else
      let sub := walkLocalDir computeKey norm rules (relDir ++ [nm]) cs
      let tail := walkLocalSeq computeKey norm checkRules sub.1 relDir rest
      (tail.1, sub.2 ++ tail.2)
  | _ :: rest => walkLocalSeq computeKey norm checkRules rules relDir rest

end

/-- `LocalScanner.scan` over a root given by its children (a missing or
non-directory root raises in the source and is outside this model), with no
`subtree` argument.  Result: the ordered record assignments of the `records`
dict, keyed by origin segments. -/
def scanLocal (computeKey : String → String → String) (norm : String → String)
    (children : List (String × FSEntry)) : List (List String × FileRecord) :=
  (walkLocalDir computeKey norm [] [] children).2

/-- A `record` event of the remote helper. -/
structure RemoteScanRecord where
  relpath : String
  node_type : String
  size : Nat
  mtime_ns : Int
  mode : Nat
deriving DecidableEq, Repr

/-- The record event `run_scan` emits for one kept entry of the `files`
list. -/
def mkRemoteRecord (childRel : List String) (e : FSEntry) : RemoteScanRecord :=
  { relpath := joinSlash childRel,
    node_type := e.lstatType.value,
    size := match e with
      | .file sz _ _ _ => sz
      | .symlink _ _ sz _ _ => sz
      | .dir _ => 0,
    mtime_ns := match e with
      | .file _ mt _ _ => mt
      | .symlink _ _ _ mt _ => mt
      | .dir _ => 0,
    mode := match e with
      | .file _ _ md _ => md
      | .symlink _ _ _ _ md => md
      | .dir _ => 0 }

mutual

/-- One visited directory of `remote_helper.run_scan`'s `os.walk` loop
(same walk structure as the local scanner; per-entry `lstat` failures emit
an error event and skip the entry — the embedded tree has no failing
entries). -/
def walkRemoteDir (rules : List (String × List String)) (relDir : List String)
    (children : List (String × FSEntry)) :
    (List (String × List String)) × List (List String × RemoteScanRecord) :=
  let rules1 := loadIgnoreAt rules relDir children
  let fileRecs := children.filterMap (fun p =>
    if p.2.isDirLike then none
    else if p.1 ∈ EXCLUDED_FILE_NAMES then none
    else
      let childRel := relDir ++ [p.1]
      if RemoteHelper.isIgnored rules1 childRel false then none
      else if p.2.lstatType = NodeType.dir then none
      else some (childRel, mkRemoteRecord childRel p.2))
  let sub := walkRemoteSeq rules1 rules1 relDir children
  (sub.1, fileRecs ++ sub.2)

/-- The descent for the remote helper's walk. -/
def walkRemoteSeq (checkRules rules : List (String × List String))
    (relDir : List String) :
    List (String × FSEntry) →
      (List (String × List String)) × List (List String × RemoteScanRecord)
  | [] => (rules, [])
  | (nm, FSEntry.dir cs) :: rest =>
    if nm ∈ EXCLUDED_FOLDERS ∨
        RemoteHelper.isIgnored checkRules (relDir ++ [nm]) true then
      walkRemoteSeq checkRules rules relDir rest
    else
      let sub := walkRemoteDir rules (relDir ++ [nm]) cs
      let tail := walkRemoteSeq checkRules sub.1 relDir rest
      (tail.1, sub.2 ++ tail.2)
  | _ :: rest => walkRemoteSeq checkRules rules relDir rest

end

/-- `remote_helper.run_scan` over a root given by its children, with no
`--subtree` argument: the emitted `record` events keyed by origin
segments. -/
def runScanRecords (children : List (String × FSEntry)) :
    List (List String × RemoteScanRecord) :=
  (walkRemoteDir [] [] children).2

/-- The node of the tree at a (nonempty) segment path that passes only
through real directories. -/
def nodeAtChildren : List (String × FSEntry) → List String → Option FSEntry
  | _, [] => none
  | children, [nm] => children.lookup nm
  | children, nm :: rest =>
    match children.lookup nm with
    | some (.dir cs) => nodeAtChildren cs rest
    | _ => none

mutual

/-- Well-formedness of a tree node: sibling names are distinct at every
level (as on a real filesystem). -/
def FSEntry.wf : FSEntry → Bool
  | .dir children => wfChildren children
  | _ => true

/-- Well-formedness of a children list. -/
def wfChildren : List (String × FSEntry) → Bool
  | [] => true
  | (nm, e) :: rest =>
    !((rest.map Prod.fst).contains nm) && e.wf && wfChildren rest

end

/-! # Claims -/

/-! ## C1 — planning of `Unknown` versus `Different` diffs -/

/-- C1 counterexample: a diff with `content_state = Unknown`,
`metadata_state = Different` and `metadata_source = "right"` under the
`Suggested` action is planned as `[metadata_update_left]`, while the same
diff with `content_state = Different` is planned as no operations — so
`Unknown` under `Suggested` is *not* planned "exactly like `Different`"
(which the claim says yields none). -/
theorem claim_C1_counterexample :
    buildPlanOperations (fun _ => none)
        [{ relpath := "u", content_state := ContentState.unknown,
           metadata_state := MetadataState.different, metadata_diff := ["mode"],
           metadata_details := [], metadata_source := some ("right"),
           left_size := none, right_size := none }]
        [("u", ACTION_SUGGESTED)] =
      Except.ok [⟨"metadata_update_left", "u"⟩] ∧
    buildPlanOperations (fun _ => none)
        [{ relpath := "u", content_state := ContentState.different,
           metadata_state := MetadataState.different, metadata_diff := ["mode"],
           metadata_details := [], metadata_source := some ("right"),
           left_size := none, right_size := none }]
        [("u", ACTION_SUGGESTED)] = Except.ok [] :=
  ⟨rfl, rfl⟩

/-- C1 (amended): an `Unknown` diff is planned exactly like a `Different`
one under every action except `Suggested`; under `Suggested` an `Unknown`
diff contributes exactly the suggested metadata operations (`_metadata_ops`,
i.e. the suggested metadata update when metadata also differs), while a
`Different` diff contributes none. -/
theorem claim_C1_unknown_planning (strptime : String → Option Int)
    (action : String) (d : DiffRecord) (h : d.content_state = .unknown) :
    planOpsForDiff strptime action d =
      (if action = ACTION_SUGGESTED then metadataOps strptime d.relpath action d
       else planOpsForDiff strptime action { d with content_state := .different }) ∧
    (action = ACTION_SUGGESTED →
      planOpsForDiff strptime action { d with content_state := .different } =
        Except.ok []) := by
  obtain ⟨rp, cs, ms, mdiff, mdet, msrc, ls, rs⟩ := d
  simp only at h
  subst h
  constructor
  · by_cases hsug : action = ACTION_SUGGESTED
    · subst hsug
      simp [planOpsForDiff, ACTION_SUGGESTED, ACTION_IGNORE, ACTION_LEFT_WINS,
        ACTION_RIGHT_WINS]
    · simp only [planOpsForDiff, if_neg hsug]
      by_cases hig : action = ACTION_IGNORE
      · simp [hig, ACTION_IGNORE]
      · by_cases hlw : action = ACTION_LEFT_WINS
        · simp [hlw, ACTION_LEFT_WINS, metadataOps, ACTION_IGNORE, ACTION_SUGGESTED]
        · by_cases hrw : action = ACTION_RIGHT_WINS
          · simp [hrw, ACTION_RIGHT_WINS, metadataOps, ACTION_IGNORE,
              ACTION_LEFT_WINS, ACTION_SUGGESTED]
          · simp [planOpsForDiff, hig, hlw, hrw, hsug, metadataOps]
  · intro hsug
    subst hsug
    simp [planOpsForDiff, ACTION_SUGGESTED, ACTION_IGNORE, ACTION_LEFT_WINS,
      ACTION_RIGHT_WINS]
    rfl

/-- Witness for C1: the amended statement at the concrete `Unknown` diff of
the counterexample. -/
theorem claim_C1_unknown_planning_witness :
    planOpsForDiff (fun _ => none) ACTION_SUGGESTED
        { relpath := "u", content_state := ContentState.unknown,
          metadata_state := MetadataState.different, metadata_diff := ["mode"],
          metadata_details := [], metadata_source := some ("right"),
          left_size := none, right_size := none } =
      (if ACTION_SUGGESTED = ACTION_SUGGESTED then
        metadataOps (fun _ => none) ("u") ACTION_SUGGESTED
          { relpath := "u", content_state := ContentState.unknown,
            metadata_state := MetadataState.different, metadata_diff := ["mode"],
            metadata_details := [], metadata_source := some ("right"),
            left_size := none, right_size := none }
       else planOpsForDiff (fun _ => none) ACTION_SUGGESTED
          { relpath := "u", content_state := ContentState.different,
            metadata_state := MetadataState.different, metadata_diff := ["mode"],
            metadata_details := [], metadata_source := some ("right"),
            left_size := none, right_size := none }) ∧
    (ACTION_SUGGESTED = ACTION_SUGGESTED →
      planOpsForDiff (fun _ => none) ACTION_SUGGESTED
          { relpath := "u", content_state := ContentState.different,
            metadata_state := MetadataState.different, metadata_diff := ["mode"],
            metadata_details := [], metadata_source := some ("right"),
            left_size := none, right_size := none } = Except.ok []) :=
  claim_C1_unknown_planning (fun _ => none) ACTION_SUGGESTED _ rfl

/-! ## C2 — local versus remote ignore evaluators on dir-only patterns -/

/-- C2 (code bug): with the single pattern `build/` loaded at the root, the
local evaluator (`ignore_rules_shared.IgnoreRules`, whose `_match_patterns`
never consults `is_dir`) ignores the *file* candidate `build`, while the
remote helper's evaluator (which skips dir-only patterns for file
candidates) does not — the two evaluators disagree and the local one
violates "a trailing `/` pattern never causes a file candidate to be
ignored". -/
theorem claim_C2_divergence :
    IgnoreShared.isIgnored (addSpec [] [] ["build/"]) ["build"] false = true ∧
    RemoteHelper.isIgnored (addSpec [] [] ["build/"]) ["build"] false = false := by
  constructor <;> decide

/-! ## C5 — deletion-intent hints -/

/-- C5: `apply_intentional_deletion_hints` preserves the length and order of
the diff list; at every position, the output diff agrees with the input diff
on every field except `metadata_source`, which becomes `deleted_on_left`
when the diff is `OnlyRight` with a previously both-sided state,
`deleted_on_right` when it is `OnlyLeft` with a previously both-sided state,
and is otherwise unchanged. -/
theorem claim_C5_deletion_hints (diffs : List DiffRecord)
    (prev : String → Option String) :
    (applyIntentionalDeletionHints diffs prev).length = diffs.length ∧
    ∀ i : Nat, (applyIntentionalDeletionHints diffs prev).get? i =
      (diffs.get? i).map (fun d =>
        { d with metadata_source :=
            if wasPresentOnBothSides (prev d.relpath) ∧
                d.content_state = .onlyRight then some DELETED_ON_LEFT
            else if wasPresentOnBothSides (prev d.relpath) ∧
                d.content_state = .onlyLeft then some DELETED_ON_RIGHT
            else d.metadata_source }) := by
  constructor
  · simp [applyIntentionalDeletionHints]
  · intro i
    simp only [applyIntentionalDeletionHints, List.get?_map]
    cases hd : diffs.get? i with
    | none => rfl
    | some d =>
      simp only [Option.map_some']
      congr 1
      unfold hintForDiff
      by_cases hb : wasPresentOnBothSides (prev d.relpath)
      · by_cases hr : d.content_state = .onlyRight
        · simp [hb, hr]
        · by_cases hl : d.content_state = .onlyLeft
          · simp [hb, hr, hl]
          · simp [hb, hr, hl]
      · simp [hb]

/-! ## C4 — review-state store version sentinel -/

/-- C4 (code bug): the checked-in `_init_schema` performs no version check
at all.  Opening a store whose `limsync` table carries a mismatched version
value (`0.0.0-test`) and reading it back returns the pre-existing
`current_diffs` row unchanged — nothing is dropped or recreated — and
`_init_schema` leaves the `limsync` table exactly as it found it (it never
creates, reads or re-inserts a sentinel).  The repository's own
`test_state_db.py` asserts the sentinel behaviour the claim describes
(importing a `_project_version` that this `state_db.py` does not define). -/
theorem claim_C4_no_version_check :
    loadCurrentDiffs
        { limsync := some [("version", "0.0.0-test")]
          state_meta := none
          current_diffs :=
            some [⟨"a.txt", "identical", "identical", [], [], none, some 5, none⟩]
          scan_actions := none
          ui_prefs := none } =
      [⟨"a.txt", "identical", "identical", [], [], none, some 5, none⟩] ∧
    (initSchema
        { limsync := some [("version", "0.0.0-test")]
          state_meta := none
          current_diffs :=
            some [⟨"a.txt", "identical", "identical", [], [], none, some 5, none⟩]
          scan_actions := none
          ui_prefs := none }).limsync =
      some [("version", "0.0.0-test")] ∧
    (∀ (norm : String → String) (db : DBState) (summary : ScanStateSummary)
        (diffs : List DiffRecord),
      (saveCurrentState norm db summary diffs).limsync = db.limsync) :=
  ⟨rfl, rfl, fun _ _ _ _ => rfl⟩

/-! ## C6 / C7 — apply-engine accounting -/

/-- The errors accumulated by the apply loop over an indexed operation list:
one formatted entry per operation whose outcome is an exception with a
non-empty message (or an unsupported kind). -/
theorem execFold_errors (exec : Nat → PlanOperation → Option String) :
    ∀ (l : List (Nat × PlanOperation)) (st : ExecLoopState),
      (l.foldl (fun s p => execStep exec s p.1 p.2) st).errors =
        st.errors ++ l.filterMap (fun p =>
          match opOutcome exec p.1 p.2 with
          | some msg => if msg = "" then none
              else some (p.2.kind ++ " " ++ p.2.relpath ++ ": " ++ msg)
          | none => none) := by
  intro l
  induction l with
  | nil => intro st; simp
  | cons p rest ih =>
    intro st
    simp only [List.foldl_cons, List.filterMap_cons]
    rw [ih]
    unfold execStep
    cases h : opOutcome exec p.1 p.2 with
    | none => simp
    | some msg =>
      by_cases hm : msg = ""
      · simp [hm]
      · simp [hm]

/-- One loop step on a succeeding operation. -/
theorem execStep_ok {exec : Nat → PlanOperation → Option String}
    {st : ExecLoopState} {i : Nat} {op : PlanOperation}
    (h : opOutcome exec i op = none) :
    execStep exec st i op =
      ⟨st.errors, insertKey st.succeeded (opKey op),
        bumpCount st.counts op.kind⟩ := by
  unfold execStep
  rw [h]

/-- One loop step on an operation that raised with a non-empty message. -/
theorem execStep_err {exec : Nat → PlanOperation → Option String}
    {st : ExecLoopState} {i : Nat} {op : PlanOperation} {msg : String}
    (h : opOutcome exec i op = some msg) (hne : msg ≠ "") :
    execStep exec st i op =
      ⟨st.errors ++ [op.kind ++ " " ++ op.relpath ++ ": " ++ msg],
        st.succeeded, bumpCount st.counts op.kind⟩ := by
  unfold execStep
  rw [h]
  simp [hne]

/-- The count invariant of the apply loop: when the processed operations have
pairwise distinct `(kind, relpath)` keys none of which is already in the
succeeded set, and every exception message is non-empty, each operation adds
exactly one unit to `|succeeded| + |errors|`. -/
theorem execFold_count (exec : Nat → PlanOperation → Option String) :
    ∀ (l : List (Nat × PlanOperation)) (st : ExecLoopState),
      ((l.map (fun p => opKey p.2)).Nodup) →
      (∀ p ∈ l, opKey p.2 ∉ st.succeeded) →
      (∀ p ∈ l, ∀ msg, opOutcome exec p.1 p.2 = some msg → msg ≠ "") →
      (l.foldl (fun s p => execStep exec s p.1 p.2) st).succeeded.length +
        (l.foldl (fun s p => execStep exec s p.1 p.2) st).errors.length =
        st.succeeded.length + st.errors.length + l.length := by
  intro l
  induction l with
  | nil => intro st _ _ _; simp
  | cons p rest ih =>
    intro st hnodup hfresh hmsg
    simp only [List.map_cons, List.nodup_cons] at hnodup
    obtain ⟨hkey, hnodup'⟩ := hnodup
    simp only [List.foldl_cons]
    cases h : opOutcome exec p.1 p.2 with
    | none =>
      rw [execStep_ok h]
      have hnotmem : opKey p.2 ∉ st.succeeded := hfresh p (by simp)
      have hins : insertKey st.succeeded (opKey p.2) =
          st.succeeded ++ [opKey p.2] := by
        unfold insertKey; rw [if_neg hnotmem]
      have hrec := ih
        ⟨st.errors, insertKey st.succeeded (opKey p.2),
          bumpCount st.counts p.2.kind⟩
        hnodup'
        (by
          intro q hq
          simp only [hins, List.mem_append, List.mem_singleton]
          rintro (hin | heq)
          · exact hfresh q (by simp [hq]) hin
          · exact hkey (heq ▸ List.mem_map_of_mem (fun r => opKey r.2) hq))
        (fun q hq => hmsg q (by simp [hq]))
      rw [hrec]
      simp [hins]
      omega
    | some msg =>
      have hne : msg ≠ "" := hmsg p (by simp) msg h
      rw [execStep_err h hne]
      have hrec := ih
        ⟨st.errors ++ [p.2.kind ++ " " ++ p.2.relpath ++ ": " ++ msg],
          st.succeeded, bumpCount st.counts p.2.kind⟩
        hnodup'
        (fun q hq => hfresh q (by simp [hq]))
        (fun q hq => hmsg q (by simp [hq]))
      rw [hrec]
      simp
      omega

/-- C6 counterexample: a plan containing the same operation twice (both
succeeding) yields `succeeded_operations = 1` (the succeeded set is keyed by
`(kind, relpath)`), no errors, and `total_operations = 2` — the claimed
identity fails. -/
theorem claim_C6_counterexample :
    (executePlan (fun _ _ => none)
        [⟨"copy_right", "a"⟩, ⟨"copy_right", "a"⟩]).succeeded_operations = 1 ∧
    (executePlan (fun _ _ => none)
        [⟨"copy_right", "a"⟩, ⟨"copy_right", "a"⟩]).errors = [] ∧
    (executePlan (fun _ _ => none)
        [⟨"copy_right", "a"⟩, ⟨"copy_right", "a"⟩]).total_operations = 2 ∧
    (executePlan (fun _ _ => none)
          [⟨"copy_right", "a"⟩, ⟨"copy_right", "a"⟩]).succeeded_operations +
        (executePlan (fun _ _ => none)
          [⟨"copy_right", "a"⟩, ⟨"copy_right", "a"⟩]).errors.length ≠
      (executePlan (fun _ _ => none)
          [⟨"copy_right", "a"⟩, ⟨"copy_right", "a"⟩]).total_operations := by
  refine ⟨rfl, rfl, rfl, ?_⟩
  decide

/-- C6 (amended): `succeeded_operations + |errors| = total_operations`
(and `total_operations` is the length of the supplied list) holds whenever
the supplied operations have pairwise distinct `(kind, relpath)` keys and
every exception raised for them carries a non-empty message; `executePlan`
counts successes as a *set* of such keys, so a duplicated successful
operation is counted once, and an empty-message exception is recorded
nowhere. -/
theorem claim_C6_apply_completeness (exec : Nat → PlanOperation → Option String)
    (ops : List PlanOperation)
    (hnodup : (ops.map opKey).Nodup)
    (hmsg : ∀ p ∈ ops.enum, ∀ msg, opOutcome exec p.1 p.2 = some msg → msg ≠ "") :
    (executePlan exec ops).succeeded_operations +
        (executePlan exec ops).errors.length =
      (executePlan exec ops).total_operations ∧
    (executePlan exec ops).total_operations = ops.length := by
  by_cases hempty : ops = []
  · subst hempty
    simp [executePlan]
  · unfold executePlan
    rw [if_neg hempty]
    have hnodup' : ((ops.enum.map (fun p => opKey p.2)).Nodup) := by
      have h1 : ops.enum.map (fun p => opKey p.2) =
          (ops.enum.map Prod.snd).map opKey := by
        rw [List.map_map]
        rfl
      rw [h1, List.enum_map_snd]
      exact hnodup
    have := execFold_count exec ops.enum
      { errors := [], succeeded := [], counts := [] }
      hnodup'
      (by intro q _; simp)
      hmsg
    simp only [List.enum_length] at this
    constructor
    · simpa using this
    · simp

/-- Witness for C6: a one-operation plan with a succeeding oracle. -/
theorem claim_C6_apply_completeness_witness :
    (executePlan (fun _ _ => none) [⟨"copy_right", "a"⟩]).succeeded_operations +
        (executePlan (fun _ _ => none) [⟨"copy_right", "a"⟩]).errors.length =
      (executePlan (fun _ _ => none) [⟨"copy_right", "a"⟩]).total_operations ∧
    (executePlan (fun _ _ => none) [⟨"copy_right", "a"⟩]).total_operations =
      [(⟨"copy_right", "a"⟩ : PlanOperation)].length :=
  claim_C6_apply_completeness (fun _ _ => none) [⟨"copy_right", "a"⟩]
    (by decide)
    (by
      intro p hp msg h
      have hp' : p = (0, (⟨"copy_right", "a"⟩ : PlanOperation)) := by
        simpa using hp
      subst hp'
      simp [opOutcome, knownKinds] at h)

/-- C7 counterexample: an operation that raises an exception whose message
is the empty string (`str(exc) = ""`) is caught but *not* recorded: the
result has no errors even though the operation failed (it is not counted as
succeeded either) — the Python `elif error:` truthiness test drops it. -/
theorem claim_C7_counterexample :
    (executePlan (fun _ _ => some "") [⟨"copy_right", "a"⟩]).errors = [] ∧
    (executePlan (fun _ _ => some "") [⟨"copy_right", "a"⟩]).succeeded_operations
      = 0 ∧
    (executePlan (fun _ _ => some "") [⟨"copy_right", "a"⟩]).total_operations
      = 1 := by
  refine ⟨rfl, rfl, rfl⟩

/-- C7 (amended): the apply loop always returns a result covering the whole
list (`total_operations = |ops|`, every operation is processed in order even
after failures), and its `errors` list holds exactly one entry
`"<kind> <relpath>: <message>"` for every operation whose execution raised
an exception with a *non-empty* message — with
`"unsupported operation kind: <kind>"` as the message of an unrecognized
kind; an exception whose message is empty is caught and skipped silently. -/
theorem claim_C7_apply_errors (exec : Nat → PlanOperation → Option String)
    (ops : List PlanOperation) :
    (executePlan exec ops).total_operations = ops.length ∧
    (executePlan exec ops).errors = ops.enum.filterMap (fun p =>
      match opOutcome exec p.1 p.2 with
      | some msg => if msg = "" then none
          else some (p.2.kind ++ " " ++ p.2.relpath ++ ": " ++ msg)
      | none => none) := by
  by_cases hempty : ops = []
  · subst hempty
    simp [executePlan]
  · unfold executePlan
    rw [if_neg hempty]
    refine ⟨by simp, ?_⟩
    simpa using execFold_errors exec ops.enum
      { errors := [], succeeded := [], counts := [] }

/-! ## C10 — recovering the metadata source from the formatted details -/

theorem octVal_octDigitChar (d : Nat) (h : d < 8) :
    octVal (octDigitChar d) = some d := by
  interval_cases d <;> decide

theorem octDigitsRevFuel_small {fuel n : Nat} (hf : 0 < fuel) (h : n < 8) :
    octDigitsRevFuel fuel n = [octDigitChar n] := by
  cases fuel with
  | zero => omega
  | succ f => simp [octDigitsRevFuel, h]

theorem octDigitsRevFuel_step {fuel n : Nat} (hf : 0 < fuel) (h : ¬ n < 8) :
    octDigitsRevFuel fuel n =
      octDigitChar (n % 8) :: octDigitsRevFuel (fuel - 1) (n / 8) := by
  cases fuel with
  | zero => omega
  | succ f => simp [octDigitsRevFuel, h]

/-- For a mode below `0o1000` the Python `03o` format is exactly three octal
digit characters. -/
theorem octPad3_lt512 (n : Nat) (h : n < 512) :
    octPad3 n = String.mk [octDigitChar (n / 64), octDigitChar (n / 8 % 8),
      octDigitChar (n % 8)] := by
  unfold octPad3 octDigitsRev
  by_cases h1 : n < 8
  · rw [octDigitsRevFuel_small (by omega) h1]
    have e1 : n / 64 = 0 := Nat.div_eq_of_lt (by omega)
    have e2 : n / 8 % 8 = 0 := by
      have : n / 8 = 0 := Nat.div_eq_of_lt (by omega)
      simp [this]
    have e3 : n % 8 = n := Nat.mod_eq_of_lt h1
    rw [e1, e2, e3]
    rfl
  · by_cases h2 : n < 64
    · rw [octDigitsRevFuel_step (by omega) h1,
        octDigitsRevFuel_small (by omega) (by omega)]
      have e1 : n / 64 = 0 := Nat.div_eq_of_lt (by omega)
      have e2 : n / 8 % 8 = n / 8 := Nat.mod_eq_of_lt (by omega)
      rw [e1, e2]
      rfl
    · rw [octDigitsRevFuel_step (by omega) h1,
        octDigitsRevFuel_step (by omega) (by omega),
        octDigitsRevFuel_small (by omega) (by omega)]
      have e1 : n / 8 / 8 = n / 64 := by
        rw [Nat.div_div_eq_div_mul]
      rw [e1]
      rfl

/-- Parsing the comparator-formatted mode detail recovers both modes exactly
when both are below `0o1000`. -/
theorem matchModeDetail_format (lm rm : Nat) (hl : lm < 512) (hr : rm < 512) :
    matchModeDetail
        ("mode: left=" ++ formatMode lm ++ " right=" ++ formatMode rm) =
      some (lm, rm) := by
  unfold formatMode
  rw [octPad3_lt512 lm hl, octPad3_lt512 rm hr]
  unfold matchModeDetail
  have hdata :
      ("mode: left=" ++ ("0x" ++ String.mk [octDigitChar (lm / 64),
          octDigitChar (lm / 8 % 8), octDigitChar (lm % 8)]) ++ " right=" ++
        ("0x" ++ String.mk [octDigitChar (rm / 64), octDigitChar (rm / 8 % 8),
          octDigitChar (rm % 8)])).data =
      'm' :: 'o' :: 'd' :: 'e' :: ':' :: ' ' :: 'l' :: 'e' :: 'f' :: 't' ::
        '=' :: '0' :: 'x' :: octDigitChar (lm / 64) ::
        octDigitChar (lm / 8 % 8) :: octDigitChar (lm % 8) :: ' ' :: 'r' ::
        'i' :: 'g' :: 'h' :: 't' :: '=' :: '0' :: 'x' ::
        octDigitChar (rm / 64) :: octDigitChar (rm / 8 % 8) ::
        [octDigitChar (rm % 8)] := by
    simp [String.data_append]
  rw [hdata]
  have el : (lm / 64 * 8 + lm / 8 % 8) * 8 + lm % 8 = lm := by omega
  have er : (rm / 64 * 8 + rm / 8 % 8) * 8 + rm % 8 = rm := by omega
  simp +decide [dropLit, dropSpaces1, isSpaceChar, takeOct3, List.dropWhile,
    octVal_octDigitChar (lm / 64) (by omega),
    octVal_octDigitChar (lm / 8 % 8) (by omega),
    octVal_octDigitChar (lm % 8) (by omega),
    octVal_octDigitChar (rm / 64) (by omega),
    octVal_octDigitChar (rm / 8 % 8) (by omega),
    octVal_octDigitChar (rm % 8) (by omega), el, er]

/-- The diff the comparator builds for a same-typed, metadata-differing pair,
restricted to the fields the planner's inference reads, with a chosen
`metadata_source`. -/
def metadataOnlyDiff (fmtMtime : Int → String) (l r : FileRecord) (tol : Int)
    (src : Option String) : DiffRecord :=
  { relpath := l.relpath
    content_state := .identical
    metadata_state := .different
    metadata_diff := (sameMetadata fmtMtime l r tol).2.1
    metadata_details := (sameMetadata fmtMtime l r tol).2.2
    metadata_source := src
    left_size := none
    right_size := none }

/-- C10 counterexample: with `left mode 0o644` and `right mode 0o4755` the
comparator-formatted detail is `mode: left=0x644 right=0x4755`; the regex of
`_infer_metadata_source_from_details` truncates the right capture to three
octal digits (`475`), so the inference returns `right`, while
`_preferred_metadata_source` on the raw records returns `left` — the exact
opposite side. -/
theorem claim_C10_counterexample :
    inferMetadataSourceFromDetails (fun _ => none)
        { relpath := "x"
          content_state := .identical
          metadata_state := .different
          metadata_diff := ["mode"]
          metadata_details :=
            ["mode: left=" ++ formatMode 0o644 ++ " right=" ++ formatMode 0o4755]
          metadata_source := none
          left_size := none
          right_size := none } =
      Except.ok (some ("right")) ∧
    preferredMetadataSource
        { relpath := "x", node_type := .file, size := 100, mtime_ns := 0,
          mode := 0o644 }
        { relpath := "x", node_type := .file, size := 100, mtime_ns := 0,
          mode := 0o4755 }
        ["mode"] = some ("left") ∧
    ("mode: left=" ++ formatMode 0o644 ++ " right=" ++ formatMode 0o4755) =
      "mode: left=0x644 right=0x4755" :=
  ⟨rfl, rfl, rfl⟩

/-- C10 (amended): for two same-typed records with *unequal modes both below
`0o1000`*, parsing the comparator-formatted details recovers exactly the
side `_preferred_metadata_source` computes, and the suggested metadata
operation planned without the `metadata_source` hint equals the one planned
with it.  (A mode of `0o1000` or above breaks the three-digit regex — see
the counterexample — and the mtime-only case goes through float-second
formatting and `strptime`, outside this model.) -/
theorem claim_C10_metadata_source_roundtrip (strptime : String → Option Int)
    (fmtMtime : Int → String) (l r : FileRecord) (tol : Int)
    (hm : l.mode ≠ r.mode) (hl : l.mode < 512) (hr : r.mode < 512) :
    inferMetadataSourceFromDetails strptime
        (metadataOnlyDiff fmtMtime l r tol none) =
      Except.ok (preferredMetadataSource l r (sameMetadata fmtMtime l r tol).2.1) ∧
    suggestedMetadataOp strptime l.relpath
        (metadataOnlyDiff fmtMtime l r tol none) =
      suggestedMetadataOp strptime l.relpath
        (metadataOnlyDiff fmtMtime l r tol
          (preferredMetadataSource l r (sameMetadata fmtMtime l r tol).2.1)) := by
  have hb : decide (l.mode ≠ r.mode) = true := decide_eq_true hm
  have hdetails : (sameMetadata fmtMtime l r tol).2.2 =
      ("mode: left=" ++ formatMode l.mode ++ " right=" ++ formatMode r.mode) ::
        (if decide (|l.mtime_ns - r.mtime_ns| > tol) then
          ["mtime: left=" ++ fmtMtime l.mtime_ns ++ " right=" ++
            fmtMtime r.mtime_ns]
         else []) := by
    simp only [sameMetadata, hb, if_true]
    simp
  have hdiff : (sameMetadata fmtMtime l r tol).2.1 =
      ("mode" : String) ::
        (if decide (|l.mtime_ns - r.mtime_ns| > tol) then
          [("mtime" : String)] else []) := by
    simp only [sameMetadata, hb, if_true]
    simp
  have hpref : preferredMetadataSource l r (sameMetadata fmtMtime l r tol).2.1 =
      some (if l.mode < r.mode then "left" else "right") := by
    unfold preferredMetadataSource
    rw [if_pos]
    exact ⟨by rw [hdiff]; exact List.mem_cons_self _ _, hm⟩
  have hinf : inferMetadataSourceFromDetails strptime
      (metadataOnlyDiff fmtMtime l r tol none) =
      Except.ok (some (if l.mode < r.mode then "left" else "right")) := by
    unfold inferMetadataSourceFromDetails metadataOnlyDiff
    simp only
    rw [hdetails]
    simp only [findModeVerdict, matchModeDetail_format l.mode r.mode hl hr]
    simp [hm]
  refine ⟨hinf.trans (by rw [hpref]), ?_⟩
  unfold suggestedMetadataOp
  rw [hpref]
  simp only [metadataOnlyDiff] at hinf ⊢
  rw [hinf]
  by_cases hlt : l.mode < r.mode
  · simp [hlt]
    rfl
  · simp [hlt]
    rfl

/-- Witness for C10: modes `0o600` and `0o644`. -/
theorem claim_C10_metadata_source_roundtrip_witness :
    inferMetadataSourceFromDetails (fun _ => none)
        (metadataOnlyDiff (fun _ => "")
          { relpath := "x", node_type := .file, size := 1, mtime_ns := 0,
            mode := 0o600 }
          { relpath := "x", node_type := .file, size := 1, mtime_ns := 0,
            mode := 0o644 } 0 none) =
      Except.ok (preferredMetadataSource
        { relpath := "x", node_type := .file, size := 1, mtime_ns := 0,
          mode := 0o600 }
        { relpath := "x", node_type := .file, size := 1, mtime_ns := 0,
          mode := 0o644 }
        (sameMetadata (fun _ => "")
          { relpath := "x", node_type := .file, size := 1, mtime_ns := 0,
            mode := 0o600 }
          { relpath := "x", node_type := .file, size := 1, mtime_ns := 0,
            mode := 0o644 } 0).2.1) ∧
    suggestedMetadataOp (fun _ => none) ("x")
        (metadataOnlyDiff (fun _ => "")
          { relpath := "x", node_type := .file, size := 1, mtime_ns := 0,
            mode := 0o600 }
          { relpath := "x", node_type := .file, size := 1, mtime_ns := 0,
            mode := 0o644 } 0 none) =
      suggestedMetadataOp (fun _ => none) ("x")
        (metadataOnlyDiff (fun _ => "")
          { relpath := "x", node_type := .file, size := 1, mtime_ns := 0,
            mode := 0o600 }
          { relpath := "x", node_type := .file, size := 1, mtime_ns := 0,
            mode := 0o644 } 0
          (preferredMetadataSource
            { relpath := "x", node_type := .file, size := 1, mtime_ns := 0,
              mode := 0o600 }
            { relpath := "x", node_type := .file, size := 1, mtime_ns := 0,
              mode := 0o644 }
            (sameMetadata (fun _ => "")
              { relpath := "x", node_type := .file, size := 1, mtime_ns := 0,
                mode := 0o600 }
              { relpath := "x", node_type := .file, size := 1, mtime_ns := 0,
                mode := 0o644 } 0).2.1)) :=
  claim_C10_metadata_source_roundtrip (fun _ => none) (fun _ => "") _ _ 0
    (by decide) (by decide) (by decide)

/-! ## C8 — comparator symmetry -/

/-- The part of a diff the symmetry claim speaks about: relpath, content
state, metadata-source hint. -/
def diffView (d : DiffRecord) : String × ContentState × Option String :=
  (d.relpath, d.content_state, d.metadata_source)

/-- Exchange of the one-sided content states. -/
def swapContentState : ContentState → ContentState
  | .onlyLeft => .onlyRight
  | .onlyRight => .onlyLeft
  | s => s

/-- Inversion of the metadata-source hint. -/
def swapSource : Option String → Option String
  | some s =>
    if s = "left" then some ("right")
    else if s = "right" then some ("left")
    else if s = DELETED_ON_LEFT then some DELETED_ON_RIGHT
    else if s = DELETED_ON_RIGHT then some DELETED_ON_LEFT
    else some s
  | none => none

/-- The swap on diff views. -/
def swapView (v : String × ContentState × Option String) :
    String × ContentState × Option String :=
  (v.1, swapContentState v.2.1, swapSource v.2.2)

/-- Mirror of a previous content-state value string under the left↔right
exchange. -/
def mirrorPrevValue (v : String) : String :=
  if v = ContentState.value .onlyLeft then ContentState.value .onlyRight
  else if v = ContentState.value .onlyRight then ContentState.value .onlyLeft
  else v

theorem sortedUnion_comm (a b : List String) : sortedUnion a b = sortedUnion b a := by
  unfold sortedUnion
  have hperm : List.Perm ((a ++ b).dedup) ((b ++ a).dedup) := by
    rw [List.perm_ext_iff_of_nodup (List.nodup_dedup _) (List.nodup_dedup _)]
    intro x
    simp only [List.mem_dedup, List.mem_append]
    tauto
  exact List.eq_of_perm_of_sorted
    (((List.perm_insertionSort _ _).trans hperm).trans
      (List.perm_insertionSort _ _).symm)
    (List.sorted_insertionSort _ _)
    (List.sorted_insertionSort _ _)

theorem sameMetadata_diff_symm (fmt : Int → String) (l r : FileRecord) (tol : Int) :
    (sameMetadata fmt r l tol).2.1 = (sameMetadata fmt l r tol).2.1 := by
  unfold sameMetadata
  have h2 : |r.mtime_ns - l.mtime_ns| = |l.mtime_ns - r.mtime_ns| :=
    abs_sub_comm _ _
  have h1 : decide (r.mode ≠ l.mode) = decide (l.mode ≠ r.mode) := by
    simp [ne_comm]
  simp only [h1, h2]

theorem preferredMetadataSource_symm (l r : FileRecord) (dl : List String) :
    preferredMetadataSource r l dl = swapSource (preferredMetadataSource l r dl) := by
  unfold preferredMetadataSource
  by_cases hmode : ("mode" : String) ∈ dl ∧ l.mode ≠ r.mode
  · have hmode' : ("mode" : String) ∈ dl ∧ r.mode ≠ l.mode :=
      ⟨hmode.1, Ne.symm hmode.2⟩
    rw [if_pos hmode', if_pos hmode]
    rcases Nat.lt_trichotomy l.mode r.mode with h | h | h
    · have h1 : ¬ r.mode < l.mode := by omega
      rw [if_neg h1, if_pos h]
      rfl
    · exact absurd h hmode.2
    · have h1 : ¬ l.mode < r.mode := by omega
      rw [if_pos h, if_neg h1]
      rfl
  · have hmode' : ¬(("mode" : String) ∈ dl ∧ r.mode ≠ l.mode) := by
      intro hc
      exact hmode ⟨hc.1, Ne.symm hc.2⟩
    rw [if_neg hmode', if_neg hmode]
    by_cases hmt : ("mtime" : String) ∈ dl ∧ l.mtime_ns ≠ r.mtime_ns
    · have hmt' : ("mtime" : String) ∈ dl ∧ r.mtime_ns ≠ l.mtime_ns :=
        ⟨hmt.1, Ne.symm hmt.2⟩
      rw [if_pos hmt', if_pos hmt]
      rcases lt_trichotomy l.mtime_ns r.mtime_ns with h | h | h
      · have h1 : ¬ r.mtime_ns < l.mtime_ns := by omega
        rw [if_neg h1, if_pos h]
        rfl
      · exact absurd h hmt.2
      · have h1 : ¬ l.mtime_ns < r.mtime_ns := by omega
        rw [if_pos h, if_neg h1]
        rfl
    · have hmt' : ¬(("mtime" : String) ∈ dl ∧ r.mtime_ns ≠ l.mtime_ns) := by
        intro hc
        exact hmt ⟨hc.1, Ne.symm hc.2⟩
      rw [if_neg hmt', if_neg hmt]
      rfl

theorem wasBoth_mirror (v : Option String) :
    wasPresentOnBothSides (v.map mirrorPrevValue) = wasPresentOnBothSides v := by
  cases v with
  | none => rfl
  | some s =>
    simp only [Option.map_some']
    unfold mirrorPrevValue
    by_cases h1 : s = ContentState.value .onlyLeft
    · rw [if_pos h1, h1]
      decide
    · rw [if_neg h1]
      by_cases h2 : s = ContentState.value .onlyRight
      · rw [if_pos h2, h2]
        decide
      · rw [if_neg h2]

theorem diffForPath_view_symm (fmt : Int → String)
    (left right : List (String × FileRecord)) (tol : Int) (p : String) :
    diffView (diffForPath fmt right left tol p) =
      swapView (diffView (diffForPath fmt left right tol p)) := by
  unfold diffForPath
  cases hL : left.lookup p <;> cases hR : right.lookup p <;>
    simp only [diffForPair]
  · simp [diffView, swapView, swapContentState, swapSource]
  · simp [diffView, swapView, swapContentState, swapSource]
  · simp [diffView, swapView, swapContentState, swapSource]
  case some.some a b =>
    by_cases htype : a.node_type = b.node_type
    · have hne1 : ¬ b.node_type ≠ a.node_type := fun hc => hc htype.symm
      have hne2 : ¬ a.node_type ≠ b.node_type := fun hc => hc htype
      rw [if_neg hne1, if_neg hne2]
      by_cases hsym : a.node_type = NodeType.symlink
      · have hsymb : b.node_type = NodeType.symlink := htype ▸ hsym
        rw [if_pos hsymb, if_pos hsym]
        by_cases heq : orFalsy a.link_target_key a.link_target =
            orFalsy b.link_target_key b.link_target
        · have heq1 : orFalsy b.link_target_key b.link_target =
              orFalsy a.link_target_key a.link_target := heq.symm
          rw [if_pos heq1, if_pos heq]
          rfl
        · have heq1 : ¬ orFalsy b.link_target_key b.link_target =
              orFalsy a.link_target_key a.link_target := fun hc => heq hc.symm
          rw [if_neg heq1, if_neg heq]
          rfl
      · have hsymb : ¬ b.node_type = NodeType.symlink := htype ▸ hsym
        rw [if_neg hsymb, if_neg hsym]
        have hsrc : preferredMetadataSource b a (sameMetadata fmt b a tol).2.1 =
            swapSource (preferredMetadataSource a b (sameMetadata fmt a b tol).2.1) := by
          rw [sameMetadata_diff_symm]
          exact preferredMetadataSource_symm a b _
        by_cases hfile : a.node_type = NodeType.file
        · have hfileb : b.node_type = NodeType.file := htype ▸ hfile
          have hf1 : ¬ b.node_type ≠ NodeType.file := fun hc => hc hfileb
          have hf2 : ¬ a.node_type ≠ NodeType.file := fun hc => hc hfile
          rw [if_neg hf1, if_neg hf2]
          have habs : |b.mtime_ns - a.mtime_ns| = |a.mtime_ns - b.mtime_ns| :=
            abs_sub_comm _ _
          have hsz : (decide (b.size = a.size)) = (decide (a.size = b.size)) := by
            simp [eq_comm]
          by_cases hsame : (decide (a.size = b.size) &&
              decide (|a.mtime_ns - b.mtime_ns| ≤ tol)) = true
          · have hsame1 : (decide (b.size = a.size) &&
                decide (|b.mtime_ns - a.mtime_ns| ≤ tol)) = true := by
              rw [hsz, habs]
              exact hsame
            rw [if_pos hsame1, if_pos hsame]
            simp only [diffView, swapView, swapContentState, swapSource]
            exact Prod.ext rfl (Prod.ext rfl hsrc)
          · have hsame1 : ¬ (decide (b.size = a.size) &&
                decide (|b.mtime_ns - a.mtime_ns| ≤ tol)) = true := by
              rw [hsz, habs]
              exact hsame
            rw [if_neg hsame1, if_neg hsame]
            by_cases hu : a.size = b.size
            · have hu1 : b.size = a.size := hu.symm
              rw [if_pos hu1, if_pos hu]
              simp only [diffView, swapView, swapContentState, swapSource]
              exact Prod.ext rfl (Prod.ext rfl hsrc)
            · have hu1 : ¬ b.size = a.size := fun hc => hu hc.symm
              rw [if_neg hu1, if_neg hu]
              simp only [diffView, swapView, swapContentState, swapSource]
              exact Prod.ext rfl (Prod.ext rfl hsrc)
        · have hfileb : ¬ b.node_type = NodeType.file := htype ▸ hfile
          have hf1 : b.node_type ≠ NodeType.file := hfileb
          have hf2 : a.node_type ≠ NodeType.file := hfile
          rw [if_pos hf1, if_pos hf2]
          simp only [diffView, swapView, swapContentState, swapSource]
          exact Prod.ext rfl (Prod.ext rfl hsrc)
    · have hne1 : b.node_type ≠ a.node_type := fun hc => htype hc.symm
      have hne2 : a.node_type ≠ b.node_type := htype
      rw [if_pos hne1, if_pos hne2]
      rfl

theorem hint_view_symm (prev : String → Option String) (d d' : DiffRecord)
    (h : diffView d' = swapView (diffView d)) :
    diffView (hintForDiff (fun q => (prev q).map mirrorPrevValue) d') =
      swapView (diffView (hintForDiff prev d)) := by
  have hrp : d'.relpath = d.relpath := congrArg Prod.fst h
  have hcs : d'.content_state = swapContentState d.content_state :=
    congrArg (fun v => v.2.1) h
  have hms : d'.metadata_source = swapSource d.metadata_source :=
    congrArg (fun v => v.2.2) h
  unfold hintForDiff
  rw [hrp, wasBoth_mirror]
  by_cases hb : wasPresentOnBothSides (prev d.relpath) = true
  · rw [hb]
    cases hc : d.content_state <;>
      simp_all [diffView, swapView, swapContentState, swapSource,
        DELETED_ON_LEFT, DELETED_ON_RIGHT]
  · have hb' : wasPresentOnBothSides (prev d.relpath) = false := by
      revert hb
      cases wasPresentOnBothSides (prev d.relpath) <;> simp
    rw [hb']
    simpa [diffView, swapView] using h

/-- C8: swapping the comparator's inputs (and mirroring the previous content
states fed to the deletion-intent overlay) turns every `OnlyLeft` into
`OnlyRight` and vice versa, preserves `Identical`, `Different` and
`Unknown`, and inverts the `metadata_source` hint
(`left`↔`right`, `deleted_on_left`↔`deleted_on_right`) in every output
diff, position by position. -/
theorem claim_C8_comparator_symmetry (fmt : Int → String)
    (left right : List (String × FileRecord)) (tol : Int)
    (prev : String → Option String) :
    (applyIntentionalDeletionHints (compareRecords fmt right left tol)
        (fun q => (prev q).map mirrorPrevValue)).map diffView =
      ((applyIntentionalDeletionHints (compareRecords fmt left right tol)
        prev).map diffView).map swapView := by
  unfold applyIntentionalDeletionHints compareRecords
  rw [sortedUnion_comm (keysOf right) (keysOf left)]
  simp only [List.map_map]
  apply List.map_congr_left
  intro p _
  exact hint_view_symm prev _ _ (diffForPath_view_symm fmt left right tol p)

/-! ## C9 — save/load round trip and action garbage collection -/

theorem upsertDiffRow_mem_iff {t : List DiffRow} {row x : DiffRow}
    (hnd : (t.map DiffRow.relpath).Nodup) :
    x ∈ upsertDiffRow t row ↔
      (x = row ∨ (x ∈ t ∧ x.relpath ≠ row.relpath)) := by
  unfold upsertDiffRow
  by_cases hc : t.any (fun r => r.relpath = row.relpath)
  · rw [if_pos hc]
    simp only [List.mem_map]
    constructor
    · rintro ⟨r, hr, hrx⟩
      by_cases hk : r.relpath = row.relpath
      · rw [if_pos hk] at hrx
        exact Or.inl hrx.symm
      · rw [if_neg hk] at hrx
        exact Or.inr ⟨hrx ▸ hr, hrx ▸ hk⟩
    · rintro (hx | ⟨hxt, hxk⟩)
      · subst hx
        simp only [List.any_eq_true, decide_eq_true_eq] at hc
        obtain ⟨r, hr, hrk⟩ := hc
        exact ⟨r, hr, by rw [if_pos hrk]⟩
      · exact ⟨x, hxt, by rw [if_neg hxk]⟩
  · rw [if_neg hc]
    simp only [List.any_eq_true, decide_eq_true_eq, not_exists] at hc
    push_neg at hc
    simp only [List.mem_append, List.mem_singleton]
    constructor
    · rintro (hx | hx)
      · exact Or.inr ⟨hx, hc x hx⟩
      · exact Or.inl hx
    · rintro (hx | ⟨hxt, _⟩)
      · exact Or.inr hx
      · exact Or.inl hxt

theorem upsertDiffRow_keys {t : List DiffRow} {row : DiffRow} {k : String} :
    k ∈ (upsertDiffRow t row).map DiffRow.relpath ↔
      (k = row.relpath ∨ k ∈ t.map DiffRow.relpath) := by
  unfold upsertDiffRow
  by_cases hc : t.any (fun r => r.relpath = row.relpath)
  · rw [if_pos hc]
    simp only [List.map_map, List.mem_map, Function.comp]
    constructor
    · rintro ⟨r, hr, hrk⟩
      by_cases hk : r.relpath = row.relpath
      · rw [if_pos hk] at hrk
        exact Or.inl hrk.symm
      · rw [if_neg hk] at hrk
        exact Or.inr ⟨r, hr, hrk⟩
    · rintro (hk | ⟨r, hr, hrk⟩)
      · simp only [List.any_eq_true, decide_eq_true_eq] at hc
        obtain ⟨r, hr, hrk⟩ := hc
        exact ⟨r, hr, by rw [if_pos hrk, hk]⟩
      · by_cases hk : r.relpath = row.relpath
        · exact ⟨r, hr, by rw [if_pos hk, ← hrk, hk]⟩
        · exact ⟨r, hr, by rw [if_neg hk, hrk]⟩
  · rw [if_neg hc]
    simp [List.mem_map, or_comm]

theorem upsertDiffRow_keys_nodup {t : List DiffRow} {row : DiffRow}
    (hnd : (t.map DiffRow.relpath).Nodup) :
    ((upsertDiffRow t row).map DiffRow.relpath).Nodup := by
  unfold upsertDiffRow
  by_cases hc : t.any (fun r => r.relpath = row.relpath)
  · rw [if_pos hc]
    simp only [List.any_eq_true, decide_eq_true_eq] at hc
    obtain ⟨r0, hr0, hr0k⟩ := hc
    have hmapeq : (t.map (fun r => if r.relpath = row.relpath then row else r)).map
        DiffRow.relpath = t.map DiffRow.relpath := by
      rw [List.map_map]
      apply List.map_congr_left
      intro r _
      by_cases hk : r.relpath = row.relpath
      · simp [hk]
      · simp [hk]
    rw [hmapeq]
    exact hnd
  · rw [if_neg hc]
    simp only [List.any_eq_true, decide_eq_true_eq] at hc
    push_neg at hc
    rw [List.map_append]
    simp only [List.map_cons, List.map_nil]
    rw [List.nodup_append]
    refine ⟨hnd, List.nodup_singleton _, ?_⟩
    intro k hk
    simp only [List.mem_map] at hk
    obtain ⟨r, hr, hrk⟩ := hk
    simp only [List.mem_singleton]
    intro hkr
    exact hc r hr (hrk ▸ hkr ▸ rfl)

theorem foldl_upsert_mem_iff :
    ∀ (rows : List DiffRow) (t : List DiffRow) (x : DiffRow),
      (t.map DiffRow.relpath).Nodup →
      ((rows.map DiffRow.relpath).Nodup) →
      (x ∈ rows.foldl upsertDiffRow t ↔
        (x ∈ rows ∨ (x ∈ t ∧ x.relpath ∉ rows.map DiffRow.relpath))) := by
  intro rows
  induction rows with
  | nil => intro t x _ _; simp
  | cons row rest ih =>
    intro t x hnd hrows
    simp only [List.map_cons, List.nodup_cons] at hrows
    obtain ⟨hkey, hrows'⟩ := hrows
    simp only [List.foldl_cons]
    rw [ih (upsertDiffRow t row) x (upsertDiffRow_keys_nodup hnd) hrows']
    rw [upsertDiffRow_mem_iff hnd]
    constructor
    · rintro (hx | ⟨hx | ⟨hxt, hxk⟩, hnot⟩)
      · exact Or.inl (List.mem_cons_of_mem _ hx)
      · exact Or.inl (hx ▸ List.mem_cons_self _ _)
      · refine Or.inr ⟨hxt, ?_⟩
        simp only [List.map_cons, List.mem_cons]
        rintro (hk | hk)
        · exact hxk hk
        · exact hnot hk
    · rintro (hx | ⟨hxt, hnot⟩)
      · rcases List.mem_cons.mp hx with hx | hx
        · subst hx
          by_cases hmem : x ∈ rest
          · exact Or.inl hmem
          · refine Or.inr ⟨Or.inl rfl, ?_⟩
            intro hk
            exact hkey hk
        · exact Or.inl hx
      · simp only [List.map_cons, List.mem_cons] at hnot
        push_neg at hnot
        exact Or.inr ⟨Or.inr ⟨hxt, hnot.1⟩, hnot.2⟩

theorem foldl_upsert_keys_nodup :
    ∀ (rows : List DiffRow) (t : List DiffRow),
      (t.map DiffRow.relpath).Nodup →
      (((rows.foldl upsertDiffRow t).map DiffRow.relpath).Nodup) := by
  intro rows
  induction rows with
  | nil => intro t h; simpa using h
  | cons row rest ih =>
    intro t hnd
    simp only [List.foldl_cons]
    exact ih _ (upsertDiffRow_keys_nodup hnd)

theorem seenPaths_mem_iff (norm : String → String) (diffs : List DiffRecord)
    (x : String) :
    x ∈ seenPaths norm diffs ↔ x ∈ diffs.map (fun d => norm d.relpath) := by
  unfold seenPaths
  suffices h : ∀ (acc : List String),
      x ∈ diffs.foldl
        (fun s d => if norm d.relpath ∈ s then s else s ++ [norm d.relpath]) acc ↔
      x ∈ acc ∨ x ∈ diffs.map (fun d => norm d.relpath) by
    simpa using h []
  induction diffs with
  | nil => intro acc; simp
  | cons d rest ih =>
    intro acc
    simp only [List.foldl_cons, List.map_cons, List.mem_cons]
    rw [ih]
    by_cases hmem : norm d.relpath ∈ acc
    · rw [if_pos hmem]
      constructor
      · rintro (hx | hx)
        · exact Or.inl hx
        · exact Or.inr (Or.inr hx)
      · rintro (hx | hx | hx)
        · exact Or.inl hx
        · exact Or.inl (hx ▸ hmem)
        · exact Or.inr hx
    · rw [if_neg hmem]
      simp only [List.mem_append, List.mem_singleton]
      tauto

/-- Two lists of rows that are permutations of each other, both sorted by
relpath, with duplicate-free relpaths, are equal. -/
theorem eq_of_perm_sorted_key_nodup :
    ∀ {A B : List DiffRow}, List.Perm A B → A.Sorted diffRowLE →
      B.Sorted diffRowLE → ((A.map DiffRow.relpath).Nodup) → A = B := by
  intro A
  induction A with
  | nil =>
    intro B hperm _ _ _
    exact hperm.nil_eq
  | cons a A' ih =>
    intro B hperm hsA hsB hnd
    cases B with
    | nil =>
      have := hperm.length_eq
      simp at this
    | cons b B' =>
      have hab : a = b := by
        have haB : a ∈ b :: B' := hperm.mem_iff.mp (List.mem_cons_self _ _)
        have hbA : b ∈ a :: A' := hperm.mem_iff.mpr (List.mem_cons_self _ _)
        rcases List.mem_cons.mp haB with h1 | h1
        · exact h1
        · rcases List.mem_cons.mp hbA with h2 | h2
          · exact h2.symm
          · exfalso
            have hle1 : diffRowLE b a := (List.sorted_cons.mp hsB).1 a h1
            have hle2 : diffRowLE a b := (List.sorted_cons.mp hsA).1 b h2
            have hkey : a.relpath = b.relpath := le_antisymm hle2 hle1
            have hmem : a.relpath ∈ A'.map DiffRow.relpath := by
              rw [hkey]
              exact List.mem_map_of_mem _ h2
            exact (List.nodup_cons.mp hnd).1 hmem
      subst hab
      have hperm' : List.Perm A' B' := hperm.cons_inv
      rw [ih hperm' (List.sorted_cons.mp hsA).2 (List.sorted_cons.mp hsB).2
        (List.nodup_cons.mp hnd).2]

/-- C9 counterexample: saving two diffs that share the relpath `a` (first
`Identical`, then `Different`) leaves a single `current_diffs` row carrying
the *second* diff's data — `load_current_diffs` does not return "exactly one
row per saved diff": the first saved diff has no row (`ON CONFLICT DO
UPDATE` collapses equal relpaths, last write wins). -/
theorem claim_C9_counterexample :
    (loadCurrentDiffs (saveCurrentState id {}
        ⟨"l", "r", 0.0, 0.0, 1, 1, 1, 0, 0, 0, 0, 0⟩
        [{ relpath := "a", content_state := .identical,
           metadata_state := .identical, metadata_diff := [],
           metadata_details := [], metadata_source := none,
           left_size := none, right_size := none },
         { relpath := "a", content_state := .different,
           metadata_state := .identical, metadata_diff := [],
           metadata_details := [], metadata_source := none,
           left_size := none, right_size := none }])).length = 1 ∧
    loadCurrentDiffs (saveCurrentState id {}
        ⟨"l", "r", 0.0, 0.0, 1, 1, 1, 0, 0, 0, 0, 0⟩
        [{ relpath := "a", content_state := .identical,
           metadata_state := .identical, metadata_diff := [],
           metadata_details := [], metadata_source := none,
           left_size := none, right_size := none },
         { relpath := "a", content_state := .different,
           metadata_state := .identical, metadata_diff := [],
           metadata_details := [], metadata_source := none,
           left_size := none, right_size := none }]) =
      [⟨"a", "different", "identical", [], [], none, none, none⟩] :=
  ⟨rfl, rfl⟩

/-- C9 (amended): for a diff list whose normalized relpaths are pairwise
distinct (as every comparator output is), saving into *any* well-formed
store and loading returns exactly the saved diffs' rows, sorted by relpath
and nothing else; and — unconditionally in the same setting — every
surviving `scan_actions` row has a matching `current_diffs` row.  (With
duplicate relpaths the upsert collapses them, last write winning.) -/
theorem claim_C9_store_roundtrip (norm : String → String) (db : DBState)
    (summary : ScanStateSummary) (diffs : List DiffRecord)
    (hdb : ((db.current_diffs.getD []).map DiffRow.relpath).Nodup)
    (hdistinct : (diffs.map (fun d => norm d.relpath)).Nodup) :
    loadCurrentDiffs (saveCurrentState norm db summary diffs) =
      List.insertionSort diffRowLE (diffs.map (toDiffRow norm)) ∧
    ∀ a ∈ (saveCurrentState norm db summary diffs).scan_actions.getD [],
      ∃ r ∈ (saveCurrentState norm db summary diffs).current_diffs.getD [],
        r.relpath = a.relpath := by
  have hkeysrows : (diffs.map (toDiffRow norm)).map DiffRow.relpath =
      diffs.map (fun d => norm d.relpath) := by
    rw [List.map_map]
    rfl
  have hrowsnd : ((diffs.map (toDiffRow norm)).map DiffRow.relpath).Nodup := by
    rw [hkeysrows]
    exact hdistinct
  have hsavecd : (saveCurrentState norm db summary diffs).current_diffs.getD [] =
      ((diffs.map (toDiffRow norm)).foldl upsertDiffRow
        (db.current_diffs.getD [])).filter
        (fun r => decide (r.relpath ∈ seenPaths norm diffs)) := by
    unfold saveCurrentState initSchema
    simp only [Option.getD_some]
    rw [List.foldl_map]
  have hsavesa : (saveCurrentState norm db summary diffs).scan_actions.getD [] =
      (db.scan_actions.getD []).filter
        (fun a => decide (a.relpath ∈ seenPaths norm diffs)) := by
    unfold saveCurrentState initSchema
    simp only [Option.getD_some]
  have hdbnd : ((db.current_diffs.getD []).map DiffRow.relpath).Nodup := hdb
  have hcd : ∀ x : DiffRow,
      x ∈ (saveCurrentState norm db summary diffs).current_diffs.getD [] ↔
        x ∈ diffs.map (toDiffRow norm) := by
    intro x
    rw [hsavecd, List.mem_filter]
    rw [foldl_upsert_mem_iff _ _ _ hdbnd hrowsnd]
    simp only [decide_eq_true_eq, seenPaths_mem_iff, ← hkeysrows]
    constructor
    · rintro ⟨hx | ⟨_, hnot⟩, hseen⟩
      · exact hx
      · exact absurd hseen hnot
    · intro hx
      exact ⟨Or.inl hx, List.mem_map_of_mem _ hx⟩
  have hcdnd : (((saveCurrentState norm db summary diffs).current_diffs.getD
      []).map DiffRow.relpath).Nodup := by
    rw [hsavecd]
    exact List.Nodup.sublist
      ((List.filter_sublist _).map DiffRow.relpath)
      (foldl_upsert_keys_nodup _ _ hdbnd)
  have hperm2 : List.Perm
      ((saveCurrentState norm db summary diffs).current_diffs.getD [])
      (diffs.map (toDiffRow norm)) := by
    rw [List.perm_ext_iff_of_nodup (List.Nodup.of_map _ hcdnd)
      (List.Nodup.of_map _ hrowsnd)]
    exact hcd
  constructor
  · have hload : loadCurrentDiffs (saveCurrentState norm db summary diffs) =
        List.insertionSort diffRowLE
          ((saveCurrentState norm db summary diffs).current_diffs.getD []) := by
      unfold loadCurrentDiffs initSchema
      simp only [Option.getD_some]
    rw [hload]
    apply eq_of_perm_sorted_key_nodup
    · exact ((List.perm_insertionSort _ _).trans hperm2).trans
        (List.perm_insertionSort _ _).symm
    · exact List.sorted_insertionSort _ _
    · exact List.sorted_insertionSort _ _
    · exact (((List.perm_insertionSort diffRowLE _).map
        DiffRow.relpath).nodup_iff).mpr hcdnd
  · intro a ha
    rw [hsavesa, List.mem_filter] at ha
    obtain ⟨-, hseen⟩ := ha
    simp only [decide_eq_true_eq, seenPaths_mem_iff, ← hkeysrows] at hseen
    obtain ⟨row, hrow, hrowk⟩ := List.mem_map.mp hseen
    exact ⟨row, (hcd row).mpr hrow, hrowk⟩

/-- Witness for C9: one diff saved into a fresh store via the identity
normalization. -/
theorem claim_C9_store_roundtrip_witness :
    loadCurrentDiffs (saveCurrentState id {}
        ⟨"l", "r", 0.0, 0.0, 1, 0, 1, 1, 0, 0, 0, 0⟩
        [{ relpath := "a", content_state := .onlyLeft,
           metadata_state := .notApplicable, metadata_diff := [],
           metadata_details := [], metadata_source := none,
           left_size := some 5, right_size := none }]) =
      List.insertionSort diffRowLE
        ([{ relpath := "a", content_state := .onlyLeft,
            metadata_state := .notApplicable, metadata_diff := [],
            metadata_details := [], metadata_source := none,
            left_size := some 5, right_size := none }].map (toDiffRow id)) ∧
    ∀ a ∈ (saveCurrentState id {}
        ⟨"l", "r", 0.0, 0.0, 1, 0, 1, 1, 0, 0, 0, 0⟩
        [{ relpath := "a", content_state := .onlyLeft,
           metadata_state := .notApplicable, metadata_diff := [],
           metadata_details := [], metadata_source := none,
           left_size := some 5, right_size := none }]).scan_actions.getD [],
      ∃ r ∈ (saveCurrentState id {}
          ⟨"l", "r", 0.0, 0.0, 1, 0, 1, 1, 0, 0, 0, 0⟩
          [{ relpath := "a", content_state := .onlyLeft,
             metadata_state := .notApplicable, metadata_diff := [],
             metadata_details := [], metadata_source := none,
             left_size := some 5, right_size := none }]).current_diffs.getD [],
        r.relpath = a.relpath :=
  claim_C9_store_roundtrip id {} _ _ (by simp) (by simp)

/-! ## C3 — directory symlinks in the scanners -/

/-- A relative path (nonempty segment list) that the walk can emit a record
for: every intermediate segment is a real directory and the final segment is
a non-`is_dir()` entry (a regular file or a non-directory symlink). -/
inductive GoodPath : List (String × FSEntry) → List String → Prop where
  | single {children : List (String × FSEntry)} {nm : String} {e : FSEntry} :
      children.lookup nm = some e → e.isDirLike = false → GoodPath children [nm]
  | step {children : List (String × FSEntry)} {nm : String}
      {cs : List (String × FSEntry)} {rest : List String} :
      children.lookup nm = some (.dir cs) → rest ≠ [] → GoodPath cs rest →
      GoodPath children (nm :: rest)

theorem GoodPath.ne_nil {children : List (String × FSEntry)} {rel : List String}
    (h : GoodPath children rel) : rel ≠ [] := by
  cases h <;> simp

theorem wfChildren_parts {nm : String} {e : FSEntry}
    {rest : List (String × FSEntry)}
    (h : wfChildren ((nm, e) :: rest) = true) :
    ((rest.map Prod.fst).contains nm) = false ∧ e.wf = true ∧
      wfChildren rest = true := by
  rw [wfChildren] at h
  simp only [Bool.and_eq_true, Bool.not_eq_true'] at h
  exact ⟨h.1.1, h.1.2, h.2⟩

theorem wfChildren_nodup :
    ∀ {children : List (String × FSEntry)}, wfChildren children = true →
      (children.map Prod.fst).Nodup := by
  intro children
  induction children with
  | nil => intro _; simp
  | cons p rest ih =>
    intro h
    obtain ⟨nm, e⟩ := p
    obtain ⟨hc, -, hrest⟩ := wfChildren_parts h
    simp only [List.map_cons, List.nodup_cons]
    refine ⟨?_, ih hrest⟩
    intro hmem
    have : (rest.map Prod.fst).contains nm = true := by
      exact List.elem_eq_true_of_mem hmem
    rw [this] at hc
    cases hc

theorem wfChildren_mem_wf :
    ∀ {children : List (String × FSEntry)} {p : String × FSEntry},
      wfChildren children = true → p ∈ children → p.2.wf = true := by
  intro children
  induction children with
  | nil => intro p _ hmem; simp at hmem
  | cons q rest ih =>
    intro p h hmem
    obtain ⟨nm, e⟩ := q
    obtain ⟨-, hwf, hrest⟩ := wfChildren_parts h
    rcases List.mem_cons.mp hmem with hp | hp
    · rw [hp]
      exact hwf
    · exact ih hrest hp

theorem lookup_eq_of_mem_nodup :
    ∀ {children : List (String × FSEntry)} {nm : String} {e : FSEntry},
      (nm, e) ∈ children → (children.map Prod.fst).Nodup →
      children.lookup nm = some e := by
  intro children
  induction children with
  | nil => intro nm e hmem _; simp at hmem
  | cons p rest ih =>
    intro nm e hmem hnd
    obtain ⟨q1, q2⟩ := p
    rcases List.mem_cons.mp hmem with h | h
    · rw [← h]
      simp [List.lookup]
    · have hin : nm ∈ rest.map Prod.fst := by
        have := List.mem_map_of_mem Prod.fst h
        simpa using this
      have hne : nm ≠ q1 := by
        intro hc
        rw [hc] at hin
        exact (List.nodup_cons.mp (by simpa using hnd)).1 hin
      have hbeq : (nm == q1) = false := beq_eq_false_iff_ne.mpr hne
      simp only [List.lookup, hbeq]
      exact ih h (List.nodup_cons.mp (by simpa using hnd)).2

/-- No `GoodPath` extends a path whose node is a directory-targeted symlink:
the walk never emits a record at or below such a node. -/
theorem goodPath_not_into_symlinkDir :
    ∀ (segs : List String) {children : List (String × FSEntry)}
      {rel : List String} {target : String} {b : Bool} {sz md : Nat} {mt : Int},
      nodeAtChildren children segs = some (.symlink target b sz mt md) →
      b = true → GoodPath children rel → ¬ segs <+: rel := by
  intro segs
  induction segs with
  | nil =>
    intro children rel target b sz md mt hnode _ _
    simp [nodeAtChildren] at hnode
  | cons nm s2 ih =>
    intro children rel target b sz md mt hnode hb hgood hpre
    obtain ⟨rel2, hrel⟩ := hpre
    simp only [List.cons_append] at hrel
    cases s2 with
    | nil =>
      simp only [nodeAtChildren] at hnode
      cases hgood with
      | single hlook hdir =>
        rename_i nm' e
        simp only [List.nil_append] at hrel
        injection hrel with h1 h2
        subst h1
        rw [hnode] at hlook
        injection hlook with he
        rw [← he] at hdir
        rw [hb] at hdir
        simp [FSEntry.isDirLike] at hdir
      | step hlook hne hrest =>
        rename_i nm' cs rest
        simp only [List.nil_append] at hrel
        injection hrel with h1 h2
        subst h1
        rw [hnode] at hlook
        simp at hlook
    | cons s0 s3 =>
      cases hgood with
      | single hlook hdir =>
        simp at hrel
      | step hlook hne hrest =>
        rename_i nm' cs rest
        injection hrel with h1 h2
        subst h1
        simp only [nodeAtChildren] at hnode
        rw [hlook] at hnode
        exact ih hnode hb hrest ⟨rel2, h2⟩

mutual

/-- Every record the local walk emits for a directory lies on a `GoodPath`
of that directory's children. -/
theorem walkLocalDir_keys (ck : String → String → String) (norm : String → String)
    (rules : List (String × List String)) (relDir : List String)
    (children : List (String × FSEntry)) (hwf : wfChildren children = true) :
    ∀ kr ∈ (walkLocalDir ck norm rules relDir children).2,
      ∃ rel, kr.1 = relDir ++ rel ∧ GoodPath children rel := by
  intro kr hkr
  rw [walkLocalDir] at hkr
  simp only [List.mem_append] at hkr
  rcases hkr with hkr | hkr
  · rw [List.mem_filterMap] at hkr
    obtain ⟨p, hp, hf⟩ := hkr
    by_cases h1 : p.2.isDirLike = true
    · rw [if_pos h1] at hf
      cases hf
    · rw [if_neg h1] at hf
      by_cases h2 : p.1 ∈ EXCLUDED_FILE_NAMES
      · rw [if_pos h2] at hf
        cases hf
      · rw [if_neg h2] at hf
        by_cases h3 : IgnoreShared.isIgnored (loadIgnoreAt rules relDir children)
            (relDir ++ [p.1]) false = true
        · rw [if_pos h3] at hf
          cases hf
        · rw [if_neg h3] at hf
          by_cases h4 : p.2.lstatType = NodeType.dir
          · rw [if_pos h4] at hf
            cases hf
          · rw [if_neg h4] at hf
            injection hf with hf
            refine ⟨[p.1], ?_, ?_⟩
            · rw [← hf]
            · have hp' : (p.1, p.2) ∈ children := by simpa using hp
              exact GoodPath.single
                (lookup_eq_of_mem_nodup hp' (wfChildren_nodup hwf))
                (by simpa using h1)
  · exact walkLocalSeq_keys ck norm (loadIgnoreAt rules relDir children)
      (loadIgnoreAt rules relDir children) relDir children children hwf
      (fun q hq => hq) kr hkr

/-- Every record the local descent emits, over any tail of the children
list, lies on a `GoodPath` of the visited directory's children. -/
theorem walkLocalSeq_keys (ck : String → String → String) (norm : String → String)
    (checkRules rules : List (String × List String)) (relDir : List String)
    (children entries : List (String × FSEntry))
    (hwf : wfChildren children = true)
    (hsub : ∀ p ∈ entries, p ∈ children) :
    ∀ kr ∈ (walkLocalSeq ck norm checkRules rules relDir entries).2,
      ∃ rel, kr.1 = relDir ++ rel ∧ GoodPath children rel := by
  intro kr hkr
  match entries, hsub with
  | [], _ =>
    rw [walkLocalSeq] at hkr
    cases hkr
  | (nm, FSEntry.dir cs) :: rest, hsub =>
    rw [walkLocalSeq] at hkr
    by_cases hskip : nm ∈ EXCLUDED_FOLDERS ∨
        IgnoreShared.isIgnored checkRules (relDir ++ [nm]) true = true
    · rw [if_pos hskip] at hkr
      exact walkLocalSeq_keys ck norm checkRules rules relDir children rest hwf
        (fun q hq => hsub q (List.mem_cons_of_mem _ hq)) kr hkr
    · rw [if_neg hskip] at hkr
      simp only [List.mem_append] at hkr
      rcases hkr with hkr | hkr
      · have hcs : wfChildren cs = true := by
          have := wfChildren_mem_wf hwf (hsub (nm, .dir cs) (List.mem_cons_self _ _))
          simpa [FSEntry.wf] using this
        obtain ⟨rel', h1, h2⟩ :=
          walkLocalDir_keys ck norm rules (relDir ++ [nm]) cs hcs kr hkr
        refine ⟨nm :: rel', ?_, ?_⟩
        · rw [h1]
          simp
        · exact GoodPath.step
            (lookup_eq_of_mem_nodup (hsub _ (List.mem_cons_self _ _))
              (wfChildren_nodup hwf))
            h2.ne_nil h2
      · exact walkLocalSeq_keys ck norm checkRules
          (walkLocalDir ck norm rules (relDir ++ [nm]) cs).1 relDir children rest
          hwf (fun q hq => hsub q (List.mem_cons_of_mem _ hq)) kr hkr
  | (nm, FSEntry.file sz mt md lines) :: rest, hsub =>
    rw [walkLocalSeq] at hkr
    · exact walkLocalSeq_keys ck norm checkRules rules relDir children rest hwf
        (fun q hq => hsub q (List.mem_cons_of_mem _ hq)) kr hkr
    · simp
  | (nm, FSEntry.symlink t b sz mt md) :: rest, hsub =>
    rw [walkLocalSeq] at hkr
    · exact walkLocalSeq_keys ck norm checkRules rules relDir children rest hwf
        (fun q hq => hsub q (List.mem_cons_of_mem _ hq)) kr hkr
    · simp

end

mutual

/-- Every record the remote helper's walk emits for a directory lies on a
`GoodPath` of that directory's children. -/
theorem walkRemoteDir_keys (rules : List (String × List String))
    (relDir : List String)
    (children : List (String × FSEntry)) (hwf : wfChildren children = true) :
    ∀ kr ∈ (walkRemoteDir rules relDir children).2,
      ∃ rel, kr.1 = relDir ++ rel ∧ GoodPath children rel := by
  intro kr hkr
  rw [walkRemoteDir] at hkr
  simp only [List.mem_append] at hkr
  rcases hkr with hkr | hkr
  · rw [List.mem_filterMap] at hkr
    obtain ⟨p, hp, hf⟩ := hkr
    by_cases h1 : p.2.isDirLike = true
    · rw [if_pos h1] at hf
      cases hf
    · rw [if_neg h1] at hf
      by_cases h2 : p.1 ∈ EXCLUDED_FILE_NAMES
      · rw [if_pos h2] at hf
        cases hf
      · rw [if_neg h2] at hf
        by_cases h3 : RemoteHelper.isIgnored (loadIgnoreAt rules relDir children)
            (relDir ++ [p.1]) false = true
        · rw [if_pos h3] at hf
          cases hf
        · rw [if_neg h3] at hf
          by_cases h4 : p.2.lstatType = NodeType.dir
          · rw [if_pos h4] at hf
            cases hf
          · rw [if_neg h4] at hf
            injection hf with hf
            refine ⟨[p.1], ?_, ?_⟩
            · rw [← hf]
            · have hp' : (p.1, p.2) ∈ children := by simpa using hp
              exact GoodPath.single
                (lookup_eq_of_mem_nodup hp' (wfChildren_nodup hwf))
                (by simpa using h1)
  · exact walkRemoteSeq_keys (loadIgnoreAt rules relDir children)
      (loadIgnoreAt rules relDir children) relDir children children hwf
      (fun q hq => hq) kr hkr

/-- Every record the remote descent emits, over any tail of the children
list, lies on a `GoodPath` of the visited directory's children. -/
theorem walkRemoteSeq_keys (checkRules rules : List (String × List String))
    (relDir : List String)
    (children entries : List (String × FSEntry))
    (hwf : wfChildren children = true)
    (hsub : ∀ p ∈ entries, p ∈ children) :
    ∀ kr ∈ (walkRemoteSeq checkRules rules relDir entries).2,
      ∃ rel, kr.1 = relDir ++ rel ∧ GoodPath children rel := by
  intro kr hkr
  match entries, hsub with
  | [], _ =>
    rw [walkRemoteSeq] at hkr
    cases hkr
  | (nm, FSEntry.dir cs) :: rest, hsub =>
    rw [walkRemoteSeq] at hkr
    by_cases hskip : nm ∈ EXCLUDED_FOLDERS ∨
        RemoteHelper.isIgnored checkRules (relDir ++ [nm]) true = true
    · rw [if_pos hskip] at hkr
      exact walkRemoteSeq_keys checkRules rules relDir children rest hwf
        (fun q hq => hsub q (List.mem_cons_of_mem _ hq)) kr hkr
    · rw [if_neg hskip] at hkr
      simp only [List.mem_append] at hkr
      rcases hkr with hkr | hkr
      · have hcs : wfChildren cs = true := by
          have := wfChildren_mem_wf hwf (hsub (nm, .dir cs) (List.mem_cons_self _ _))
          simpa [FSEntry.wf] using this
        obtain ⟨rel', h1, h2⟩ :=
          walkRemoteDir_keys rules (relDir ++ [nm]) cs hcs kr hkr
        refine ⟨nm :: rel', ?_, ?_⟩
        · rw [h1]
          simp
        · exact GoodPath.step
            (lookup_eq_of_mem_nodup (hsub _ (List.mem_cons_self _ _))
              (wfChildren_nodup hwf))
            h2.ne_nil h2
      · exact walkRemoteSeq_keys checkRules
          (walkRemoteDir rules (relDir ++ [nm]) cs).1 relDir children rest
          hwf (fun q hq => hsub q (List.mem_cons_of_mem _ hq)) kr hkr
  | (nm, FSEntry.file sz mt md lines) :: rest, hsub =>
    rw [walkRemoteSeq] at hkr
    · exact walkRemoteSeq_keys checkRules rules relDir children rest hwf
        (fun q hq => hsub q (List.mem_cons_of_mem _ hq)) kr hkr
    · simp
  | (nm, FSEntry.symlink t b sz mt md) :: rest, hsub =>
    rw [walkRemoteSeq] at hkr
    · exact walkRemoteSeq_keys checkRules rules relDir children rest hwf
        (fun q hq => hsub q (List.mem_cons_of_mem _ hq)) kr hkr
    · simp

end

/-- C3 (amended): in a well-formed tree, for a symlink whose target is a
directory (it sits among `os.walk`'s `dirs`, since `is_dir()` follows
links), NO record of the scan is keyed at the symlink's path or anywhere
below it — the symlink is not emitted at all (only members of the `files`
list produce records), and `followlinks=False` keeps the walk out of the
target, so none of the target's children appear either.  This holds for
both the local scanner and the remote helper's `run_scan`.  The original
claim's "emitted as exactly one FileRecord with node_type = Symlink" is
refuted by `claim_C3_counterexample`. -/
theorem claim_C3_dir_symlink_not_followed
    (ck : String → String → String) (norm : String → String)
    (children : List (String × FSEntry)) (segs : List String)
    (target : String) (sz md : Nat) (mt : Int)
    (hwf : wfChildren children = true)
    (hnode : nodeAtChildren children segs =
      some (FSEntry.symlink target true sz mt md)) :
    (∀ kr ∈ scanLocal ck norm children, ¬ segs <+: kr.1) ∧
    (∀ kr ∈ runScanRecords children, ¬ segs <+: kr.1) := by
  constructor
  · intro kr hkr
    obtain ⟨rel, h1, h2⟩ := walkLocalDir_keys ck norm [] [] children hwf kr hkr
    rw [h1, List.nil_append]
    exact goodPath_not_into_symlinkDir segs hnode rfl h2
  · intro kr hkr
    obtain ⟨rel, h1, h2⟩ := walkRemoteDir_keys [] [] children hwf kr hkr
    rw [h1, List.nil_append]
    exact goodPath_not_into_symlinkDir segs hnode rfl h2

/-- Witness for `claim_C3_dir_symlink_not_followed` at a concrete tree:
a root holding a real directory `docs` and a directory symlink `link`. -/
theorem claim_C3_dir_symlink_not_followed_witness :
    (∀ kr ∈ scanLocal (fun _ t => t) id
        [("docs", FSEntry.dir [("x.txt", FSEntry.file 1 0 420 [])]),
         ("link", FSEntry.symlink ("docs") true 4 0 511)],
      ¬ [("link" : String)] <+: kr.1) ∧
    (∀ kr ∈ runScanRecords
        [("docs", FSEntry.dir [("x.txt", FSEntry.file 1 0 420 [])]),
         ("link", FSEntry.symlink ("docs") true 4 0 511)],
      ¬ [("link" : String)] <+: kr.1) :=
  claim_C3_dir_symlink_not_followed (fun _ t => t) id
    [("docs", FSEntry.dir [("x.txt", FSEntry.file 1 0 420 [])]),
     ("link", FSEntry.symlink ("docs") true 4 0 511)]
    ["link"] ("docs") 4 511 0
    (by simp [wfChildren, FSEntry.wf])
    (by rfl)

/-- Refutation of the original C3 sentence: on a tree whose root holds the
regular directory `docs` (containing `x.txt`) and the directory symlink
`link`, both scanners emit exactly one record — the one for `docs/x.txt` —
and no record at all for the symlink `link`. -/
theorem claim_C3_counterexample :
    (scanLocal (fun _ t => t) id
        [("docs", FSEntry.dir [("x.txt", FSEntry.file 1 0 420 [])]),
         ("link", FSEntry.symlink ("docs") true 4 0 511)]).map Prod.fst
      = [["docs", "x.txt"]] ∧
    (runScanRecords
        [("docs", FSEntry.dir [("x.txt", FSEntry.file 1 0 420 [])]),
         ("link", FSEntry.symlink ("docs") true 4 0 511)]).map Prod.fst
      = [["docs", "x.txt"]] := by
  constructor
  · simp +decide [scanLocal, walkLocalDir, walkLocalSeq, loadIgnoreAt,
      EXCLUDED_FOLDERS, EXCLUDED_FILE_NAMES, FSEntry.isDirLike,
      FSEntry.lstatType, IgnoreShared.isIgnored, IgnoreShared.matchPatterns,
      mkLocalRecord]
  · simp +decide [runScanRecords, walkRemoteDir, walkRemoteSeq, loadIgnoreAt,
      EXCLUDED_FOLDERS, EXCLUDED_FILE_NAMES, FSEntry.isDirLike,
      FSEntry.lstatType, RemoteHelper.isIgnored, RemoteHelper.matchPatterns,
      mkRemoteRecord]

end Limsync
